import Mathlib

/-!
# Ray-tracing core of `RayTracerProgram.cpp`

A shallow embedding of `Sphere::hit`, `Plain::hit` and `Scene::rayColor`.

Modelling conventions.

* A `float` the program computes is an element of `Fl K`: a finite value of a
  linear ordered field `K`, `+∞`, `-∞` or NaN.  Finite arithmetic is exact
  (no rounding, no overflow); the non-finite cases follow IEEE 754: a
  comparison with NaN is false, `0/0`, `0·∞` and `∞ - ∞` are NaN, `x/0` is an
  infinity for `x ≠ 0`.  Zeros carry no sign: a zero divisor counts as `+0`.
  Every definition is computable at `K = ℚ`.
* The data of a scene (centres, radii, normals, materials, light positions) and
  the lower bound `t1` are finite: they are elements of `K`, vectors of them are
  `R3 K`.  Rays, hit records, colours and the upper bound `t2` are computed by
  the program and live in `Fl K`.
* `sqrtf` on finite non-negative arguments is a parameter `sqrtf : K → K`;
  theorems that depend on its value say what they need of it.
* `glm::dot`, `glm::normalize`, `glm::max`, `glm::min` and `glm::clamp` are
  given the definitions of the library: `normalize v = v * (1 / sqrt (v·v))`,
  `max x y = (x < y) ? y : x`, `min x y = (y < x) ? y : x`,
  `clamp x lo hi = min (max x lo) hi`.
* `Geometry::mat` may be `nullptr`; dereferencing it is the fault
  `Fault.nullMaterial`.
* `rayColor` recurses on itself; the model takes a bound `fuel` on the number of
  nested activations and reports `Fault.outOfFuel` when it is exhausted.
* The result of `rayColor` carries two ghost fields next to the colour: the
  number of `Geometry::hit` calls made and the list of depth arguments `n` with
  which `rayColor` was entered.
-/

namespace RayTracer

/-! ## Floats -/

/-- A `float`: finite, `+∞`, `-∞` or NaN. -/
inductive Fl (K : Type) where
  | fin (x : K)
  | pinf
  | ninf
  | nan
deriving DecidableEq

/-- Vector of three finite numbers: the constants of a scene. -/
structure R3 (K : Type) where
  x : K
  y : K
  z : K
deriving DecidableEq

/-- Three-component vector of floats, `glm::vec3`. -/
structure Vec3 (K : Type) where
  x : Fl K
  y : Fl K
  z : Fl K
deriving DecidableEq

section Defs

variable {K : Type} [LinearOrderedField K]

namespace Fl

/-- The infinity with the sign of `x`; NaN when `x` is zero. -/
def infOfSign (x : K) : Fl K :=
  if 0 < x then pinf else if x < 0 then ninf else nan

/-- Unary minus. -/
def neg : Fl K → Fl K
  | fin a => fin (-a)
  | pinf => ninf
  | ninf => pinf
  | nan => nan

/-- Sum `a + b`. -/
def add : Fl K → Fl K → Fl K
  | fin a, fin b => fin (a + b)
  | fin _, pinf => pinf
  | fin _, ninf => ninf
  | fin _, nan => nan
  | pinf, fin _ => pinf
  | pinf, pinf => pinf
  | pinf, ninf => nan
  | pinf, nan => nan
  | ninf, fin _ => ninf
  | ninf, pinf => nan
  | ninf, ninf => ninf
  | ninf, nan => nan
  | nan, _ => nan

/-- Difference `a - b`. -/
def sub (a b : Fl K) : Fl K := add a (neg b)

/-- Product `a * b`. -/
def mul : Fl K → Fl K → Fl K
  | fin a, fin b => fin (a * b)
  | fin a, pinf => infOfSign a
  | fin a, ninf => infOfSign (-a)
  | fin _, nan => nan
  | pinf, fin b => infOfSign b
  | pinf, pinf => pinf
  | pinf, ninf => ninf
  | pinf, nan => nan
  | ninf, fin b => infOfSign (-b)
  | ninf, pinf => ninf
  | ninf, ninf => pinf
  | ninf, nan => nan
  | nan, _ => nan

/-- Quotient `a / b`. -/
def div : Fl K → Fl K → Fl K
  | fin a, fin b => if b = 0 then infOfSign a else fin (a / b)
  | fin _, pinf => fin 0
  | fin _, ninf => fin 0
  | fin _, nan => nan
  | pinf, fin b => if b < 0 then ninf else pinf
  | pinf, _ => nan
  | ninf, fin b => if b < 0 then pinf else ninf
  | ninf, _ => nan
  | nan, _ => nan

/-- Comparison `a < b`; false when either side is NaN. -/
def lt : Fl K → Fl K → Bool
  | fin a, fin b => decide (a < b)
  | fin _, pinf => true
  | ninf, fin _ => true
  | ninf, pinf => true
  | _, _ => false

/-- Absolute value `fabs`. -/
def abs : Fl K → Fl K
  | fin a => fin |a|
  | pinf => pinf
  | ninf => pinf
  | nan => nan

/-- Square root `sqrtf`: NaN on negative arguments. -/
def sqrt (sqrtf : K → K) : Fl K → Fl K
  | fin a => if a < 0 then nan else fin (sqrtf a)
  | pinf => pinf
  | ninf => nan
  | nan => nan

/-- Power `pow(x, 100)`. -/
def pow100 : Fl K → Fl K
  | fin a => fin (a ^ 100)
  | pinf => pinf
  | ninf => pinf
  | nan => nan

/-- Library `glm::max(a, b)`, that is `(a < b) ? b : a`. -/
def max (a b : Fl K) : Fl K := if lt a b then b else a

/-- Library `glm::min(a, b)`, that is `(b < a) ? b : a`. -/
def min (a b : Fl K) : Fl K := if lt b a then b else a

/-- An upper bound that is a finite number or `INFINITY`. -/
def ofTop : WithTop K → Fl K
  | none => pinf
  | some u => fin u

end Fl

instance : Add (Fl K) := ⟨Fl.add⟩

instance : Sub (Fl K) := ⟨Fl.sub⟩

instance : Mul (Fl K) := ⟨Fl.mul⟩

instance : Div (Fl K) := ⟨Fl.div⟩

instance : Neg (Fl K) := ⟨Fl.neg⟩

/-! ## Vectors -/

namespace R3

/-- Component-wise sum. -/
def add (a b : R3 K) : R3 K := ⟨a.x + b.x, a.y + b.y, a.z + b.z⟩

/-- Component-wise difference. -/
def sub (a b : R3 K) : R3 K := ⟨a.x - b.x, a.y - b.y, a.z - b.z⟩

/-- Scaling. -/
def smul (s : K) (v : R3 K) : R3 K := ⟨s * v.x, s * v.y, s * v.z⟩

/-- Division by a scalar. -/
def sdiv (v : R3 K) (s : K) : R3 K := ⟨v.x / s, v.y / s, v.z / s⟩

/-- Inner product. -/
def dot (a b : R3 K) : K := a.x * b.x + a.y * b.y + a.z * b.z

/-- A finite vector as a `glm::vec3`. -/
def toVec (a : R3 K) : Vec3 K := ⟨Fl.fin a.x, Fl.fin a.y, Fl.fin a.z⟩

end R3

namespace Vec3

/-- Constructor `glm::vec3(s)`: all three components equal to `s`. -/
def splat (s : K) : Vec3 K := ⟨Fl.fin s, Fl.fin s, Fl.fin s⟩

/-- Component-wise sum `a + b`. -/
def add (a b : Vec3 K) : Vec3 K := ⟨a.x + b.x, a.y + b.y, a.z + b.z⟩

/-- Component-wise difference `a - b`. -/
def sub (a b : Vec3 K) : Vec3 K := ⟨a.x - b.x, a.y - b.y, a.z - b.z⟩

/-- Scaling `s * v` (and `v * s`). -/
def smul (s : Fl K) (v : Vec3 K) : Vec3 K := ⟨s * v.x, s * v.y, s * v.z⟩

/-- Division by a scalar `v / s`. -/
def sdiv (v : Vec3 K) (s : Fl K) : Vec3 K := ⟨v.x / s, v.y / s, v.z / s⟩

/-- Inner product `glm::dot`. -/
def dot (a b : Vec3 K) : Fl K := a.x * b.x + a.y * b.y + a.z * b.z

/-- Unit vector `glm::normalize(v)`, that is `v * inversesqrt(dot(v, v))`. -/
def normalize (sqrtf : K → K) (v : Vec3 K) : Vec3 K :=
  smul (Fl.fin 1 / Fl.sqrt sqrtf (dot v v)) v

/-- Component-wise `glm::clamp(v, vec3(lo), vec3(hi))`, that is
`min (max v lo) hi`. -/
def clamp (v : Vec3 K) (lo hi : K) : Vec3 K :=
  ⟨Fl.min (Fl.max v.x (Fl.fin lo)) (Fl.fin hi),
   Fl.min (Fl.max v.y (Fl.fin lo)) (Fl.fin hi),
   Fl.min (Fl.max v.z (Fl.fin lo)) (Fl.fin hi)⟩

end Vec3

/-! ## Value types -/

/-- Ray `struct Ray`: origin `o` and direction `d`. -/
structure Ray (K : Type) where
  o : Vec3 K
  d : Vec3 K
deriving DecidableEq

/-- Intersection record `struct HitResult`: point, normal, ray parameter. -/
structure HitResult (K : Type) where
  p : Vec3 K
  n : Vec3 K
  t : Fl K
deriving DecidableEq

/-- Reflectance coefficients `class Material`. -/
structure Material (K : Type) where
  mKd : R3 K
  mKs : R3 K
  mKm : K
deriving DecidableEq

/-- The constant `FLT_EPSILON` of `<cfloat>`, `2^-23`. -/
def FLT_EPSILON : K := 1 / 2 ^ 23

/-- The ray with finite origin `o` and finite direction `d`. -/
def Ray.ofR3 (o d : R3 K) : Ray K := ⟨o.toVec, d.toVec⟩

/-! ## Geometry -/

/-- Data members of `class Sphere`: centre and radius. -/
structure Sphere (K : Type) where
  mC : R3 K
  mR : K
deriving DecidableEq

/-- Data members of `class Plain`: normal and a point of the plane. -/
structure Plain (K : Type) where
  mN : R3 K
  mA : R3 K
deriving DecidableEq

/-- Method `Sphere::hit`.  `none` is `return false`; `some h` is `return true`
with `hitResult = h`. -/
def Sphere.hit (sqrtf : K → K) (s : Sphere K) (ray : Ray K) (t1 : K) (t2 : Fl K) :
    Option (HitResult K) :=
  let dDotEMinusC := Vec3.dot ray.d (Vec3.sub ray.o s.mC.toVec)
  let dDotD := Vec3.dot ray.d ray.d
  let eMinusC := Vec3.sub ray.o s.mC.toVec
  let discriminant :=
    dDotEMinusC * dDotEMinusC - dDotD * (Vec3.dot eMinusC eMinusC - Fl.fin s.mR * Fl.fin s.mR)
  if Fl.lt discriminant (Fl.fin 0) then none
  else
    let t := (-dDotEMinusC - Fl.sqrt sqrtf discriminant) / dDotD
    if Fl.lt t (Fl.fin t1) || Fl.lt t2 t then none
    else
      let p := Vec3.add ray.o (Vec3.smul t ray.d)
      some ⟨p, Vec3.sdiv (Vec3.sub p s.mC.toVec) (Fl.fin s.mR), t⟩

/-- Method `Plain::hit`. -/
def Plain.hit (pl : Plain K) (ray : Ray K) (t1 : K) (t2 : Fl K) :
    Option (HitResult K) :=
  let dDotN := Vec3.dot ray.d pl.mN.toVec
  if Fl.lt (Fl.abs dDotN) (Fl.fin FLT_EPSILON) then none
  else
    let t := (Vec3.dot pl.mA.toVec pl.mN.toVec - Vec3.dot ray.o pl.mN.toVec) / dDotN
    if Fl.lt t (Fl.fin t1) || Fl.lt t2 t then none
    else some ⟨Vec3.add ray.o (Vec3.smul t ray.d), pl.mN.toVec, t⟩

/-- Class `Geometry` with its two subclasses; `mat` is the owned material
pointer, `none` for `nullptr`. -/
inductive Geometry (K : Type) where
  | sphere (s : Sphere K) (mat : Option (Material K))
  | plain (pl : Plain K) (mat : Option (Material K))
deriving DecidableEq

/-- Member `Geometry::mat`. -/
def Geometry.mat : Geometry K → Option (Material K)
  | .sphere _ m => m
  | .plain _ m => m

/-- Virtual method `Geometry::hit`. -/
def Geometry.hit (sqrtf : K → K) : Geometry K → Ray K → K → Fl K → Option (HitResult K)
  | .sphere s _, ray, t1, t2 => s.hit sqrtf ray t1 t2
  | .plain pl _, ray, t1, t2 => pl.hit ray t1 t2

/-! ## Scene -/

/-- Data members of `class Scene`. -/
structure Scene (K : Type) where
  mPointLightList : List (R3 K)
  mGeometryList : List (Geometry K)

/-- Ways in which a run of `rayColor` leaves the model. -/
inductive Fault where
  | outOfFuel
  | nullMaterial
deriving DecidableEq

/-- Result of a run of `rayColor`: the returned colour, and two ghost fields:
the number of `Geometry::hit` calls and the depth arguments of all activations,
outermost first. -/
structure Run (K : Type) where
  color : Vec3 K
  hitTests : Nat
  calls : List Int
deriving DecidableEq

/-- The first loop of `rayColor` (closest hit).  The state is `t2` together with
`finalHitResult` and `hitGeometry`, the latter two present exactly when `hit`
is true. -/
def closestLoop (sqrtf : K → K) (ray : Ray K) (t1 : K) :
    List (Geometry K) → Fl K → Option (HitResult K × Geometry K) →
      Option (HitResult K × Geometry K)
  | [], _, best => best
  | geometry :: rest, t2, best =>
    match geometry.hit sqrtf ray t1 t2 with
    | some hitResult => closestLoop sqrtf ray t1 rest hitResult.t (some (hitResult, geometry))
    | none => closestLoop sqrtf ray t1 rest t2 best

/-- The inner loop over geometries for one shadow ray: `inShadow`, and the number
of `hit` calls made before the loop ends or breaks. -/
def shadowLoop (sqrtf : K → K) (shadowRay : Ray K) : List (Geometry K) → Bool × Nat
  | [] => (false, 0)
  | geometry :: rest =>
    match geometry.hit sqrtf shadowRay (1 / 10000) Fl.pinf with
    | some _ => (true, 1)
    | none => ((shadowLoop sqrtf shadowRay rest).1, (shadowLoop sqrtf shadowRay rest).2 + 1)

/-- The amount one unoccluded light adds to `color`. -/
def lightTerm (sqrtf : K → K) (ray : Ray K) (finalHitResult : HitResult K)
    (material : Material K) (lightPoint : R3 K) : Vec3 K :=
  let shadowRayD := Vec3.sub lightPoint.toVec finalHitResult.p
  let lightVec := Vec3.normalize sqrtf shadowRayD
  let viewVec := Vec3.normalize sqrtf (Vec3.sub ray.o finalHitResult.p)
  let halfVec := Vec3.normalize sqrtf (Vec3.add lightVec viewVec)
  Vec3.add
    (Vec3.smul (Fl.max (Fl.fin 0) (Vec3.dot finalHitResult.n lightVec)) material.mKd.toVec)
    (Vec3.smul (Fl.pow100 (Vec3.dot finalHitResult.n halfVec)) material.mKs.toVec)

/-- The loop over point lights of `rayColor`, from the colour accumulated so
far; also counts the `hit` calls of the shadow tests. -/
def lightLoop (sqrtf : K → K) (geoms : List (Geometry K)) (ray : Ray K)
    (finalHitResult : HitResult K) (material : Material K) :
    List (R3 K) → Vec3 K × Nat → Vec3 K × Nat
  | [], acc => acc
  | lightPoint :: rest, acc =>
    let shadowRayD := Vec3.sub lightPoint.toVec finalHitResult.p
    let shadowRay : Ray K := ⟨finalHitResult.p, shadowRayD⟩
    let sh := shadowLoop sqrtf shadowRay geoms
    if sh.1 then (acc.1, acc.2 + sh.2)
    else
      lightLoop sqrtf geoms ray finalHitResult material rest
        (Vec3.add acc.1 (lightTerm sqrtf ray finalHitResult material lightPoint), acc.2 + sh.2)

/-- The mirror-reflection ray of `rayColor`: origin at the hit point, direction
`d - 2 (d·n) n` for the normalized incoming direction `d`. -/
def reflectionRay (sqrtf : K → K) (ray : Ray K) (finalHitResult : HitResult K) : Ray K :=
  let d := Vec3.normalize sqrtf ray.d
  let reflectionRayD :=
    Vec3.sub d (Vec3.smul (Fl.fin 2 * Vec3.dot d finalHitResult.n) finalHitResult.n)
  ⟨finalHitResult.p, reflectionRayD⟩

/-- Method `Scene::rayColor`, with a bound `fuel` on nested activations. -/
def rayColor (sqrtf : K → K) (scene : Scene K) :
    Nat → Ray K → K → Fl K → Int → Except Fault (Run K)
  | 0, _, _, _, _ => .error .outOfFuel
  | fuel + 1, ray, t1, t2, n =>
    if n = 2 then .ok ⟨Vec3.splat 0, 0, [n]⟩
    else
      match closestLoop sqrtf ray t1 scene.mGeometryList t2 none with
      | some (finalHitResult, hitGeometry) =>
        match hitGeometry.mat with
        | none => .error .nullMaterial
        | some material =>
          let lit := lightLoop sqrtf scene.mGeometryList ray finalHitResult material
            scene.mPointLightList (Vec3.smul (Fl.fin (2 / 5)) material.mKd.toVec, 0)
          match rayColor sqrtf scene fuel (reflectionRay sqrtf ray finalHitResult)
              (1 / 100) Fl.pinf (n + 1) with
          | .error e => .error e
          | .ok sub =>
            .ok ⟨Vec3.clamp (Vec3.add lit.1 (Vec3.smul (Fl.fin material.mKm) sub.color)) 0 255,
                 scene.mGeometryList.length + lit.2 + sub.hitTests, n :: sub.calls⟩
      | none =>
        if n = 0 then .ok ⟨Vec3.splat 20, scene.mGeometryList.length, [n]⟩
        else .ok ⟨Vec3.splat 0, scene.mGeometryList.length, [n]⟩

end Defs

section SpecDefs

variable {K : Type} [LinearOrderedField K]

/-! ## Vocabulary of the specification -/

/-- Coefficient `a = d·d` of the ray-sphere quadratic `a t² + 2 b t + c' = 0`. -/
def quadA (d : R3 K) : K := R3.dot d d

/-- Coefficient `b = d·(o - c)` of the ray-sphere quadratic. -/
def quadB (s : Sphere K) (o d : R3 K) : K := R3.dot d (R3.sub o s.mC)

/-- Coefficient `c' = (o - c)·(o - c) - r²` of the ray-sphere quadratic. -/
def quadC (s : Sphere K) (o : R3 K) : K :=
  R3.dot (R3.sub o s.mC) (R3.sub o s.mC) - s.mR * s.mR

/-- Discriminant `b² - a c'` of the ray-sphere quadratic. -/
def quadD (s : Sphere K) (o d : R3 K) : K :=
  quadB s o d * quadB s o d - quadA d * quadC s o

/-- The near root `(-b - sqrt(b² - a c'))/a` of the ray-sphere quadratic. -/
def nearRoot (sqrtf : K → K) (s : Sphere K) (o d : R3 K) : K :=
  (-quadB s o d - sqrtf (quadD s o d)) / quadA d

/-- The parameter `(n·a - n·o)/(d·n)` at which a ray meets a plane. -/
def planeParam (pl : Plain K) (o d : R3 K) : K :=
  (R3.dot pl.mA pl.mN - R3.dot o pl.mN) / R3.dot d pl.mN

/-- The value `sqrtf x` is the exact non-negative square root of `x`. -/
def IsSqrtAt (sqrtf : K → K) (x : K) : Prop := 0 ≤ sqrtf x ∧ sqrtf x * sqrtf x = x

/-- The float `x` is a finite number in `[lo, hi]`. -/
def Fl.InRange (x : Fl K) (lo hi : K) : Prop := ∃ c, x = Fl.fin c ∧ lo ≤ c ∧ c ≤ hi

/-- The float `x` is NaN or a finite number in `[lo, hi]`. -/
def Fl.NanOrInRange (x : Fl K) (lo hi : K) : Prop := x = Fl.nan ∨ x.InRange lo hi

/-- Every component of `v` is a finite number in `[lo, hi]`. -/
def Vec3.InRange (v : Vec3 K) (lo hi : K) : Prop :=
  v.x.InRange lo hi ∧ v.y.InRange lo hi ∧ v.z.InRange lo hi

/-- Every component of `v` is NaN or a finite number in `[lo, hi]`. -/
def Vec3.NanOrInRange (v : Vec3 K) (lo hi : K) : Prop :=
  v.x.NanOrInRange lo hi ∧ v.y.NanOrInRange lo hi ∧ v.z.NanOrInRange lo hi

/-- The float `x` is zero or NaN. -/
def Fl.ZeroOrNan (x : Fl K) : Prop := x = Fl.fin 0 ∨ x = Fl.nan

/-- Every component of `v` is zero or NaN. -/
def Vec3.ZeroOrNan (v : Vec3 K) : Prop :=
  v.x.ZeroOrNan ∧ v.y.ZeroOrNan ∧ v.z.ZeroOrNan

/-- Every component of `v` is finite. -/
def Vec3.Finite (v : Vec3 K) : Prop := ∃ a : R3 K, v = a.toVec

/-- The colour of a run, forgetting the ghost fields. -/
def colorOf (r : Except Fault (Run K)) : Except Fault (Vec3 K) :=
  match r with
  | .error e => .error e
  | .ok run => .ok run.color

/-- The depth arguments of the activations of a run, forgetting the rest. -/
def callsOf (r : Except Fault (Run K)) : Except Fault (List Int) :=
  match r with
  | .error e => .error e
  | .ok run => .ok run.calls

/-- The light term as the specification words it,
`diffuse * max(0, n·l) + specular * pow(max(0, n·h), 100)`: the half-vector
product is clamped at `0` before exponentiation. -/
def lightTermSpec (sqrtf : K → K) (ray : Ray K) (finalHitResult : HitResult K)
    (material : Material K) (lightPoint : R3 K) : Vec3 K :=
  let shadowRayD := Vec3.sub lightPoint.toVec finalHitResult.p
  let lightVec := Vec3.normalize sqrtf shadowRayD
  let viewVec := Vec3.normalize sqrtf (Vec3.sub ray.o finalHitResult.p)
  let halfVec := Vec3.normalize sqrtf (Vec3.add lightVec viewVec)
  Vec3.add
    (Vec3.smul (Fl.max (Fl.fin 0) (Vec3.dot finalHitResult.n lightVec)) material.mKd.toVec)
    (Vec3.smul (Fl.pow100 (Fl.max (Fl.fin 0) (Vec3.dot finalHitResult.n halfVec)))
      material.mKs.toVec)

end SpecDefs

/-! ## Concrete inputs over `ℚ`

The square root used on concrete inputs is `Rat.sqrt`, which is exact on squares
of rationals. -/

/-- A hit record with finite point, normal and parameter. -/
def HitResult.ofR3 (p n : R3 ℚ) (t : ℚ) : HitResult ℚ := ⟨p.toVec, n.toVec, Fl.fin t⟩

/-- Material: black diffuse and specular, mirror coefficient 1. -/
def mirrorBlack : Material ℚ := ⟨⟨0, 0, 0⟩, ⟨0, 0, 0⟩, 1⟩

/-- Material: grey diffuse, no specular, no mirror. -/
def matteGrey : Material ℚ := ⟨⟨100, 100, 100⟩, ⟨0, 0, 0⟩, 0⟩

/-- Material: grey diffuse, no specular, mirror coefficient 1. -/
def mirrorGrey : Material ℚ := ⟨⟨100, 100, 100⟩, ⟨0, 0, 0⟩, 1⟩

/-- Material: no diffuse, specular 180 as in the program's own scene, no mirror. -/
def shinyOnly : Material ℚ := ⟨⟨0, 0, 0⟩, ⟨180, 180, 180⟩, 0⟩

/-- Material: diffuse `(30,40,50)`, no specular, no mirror. -/
def matteTint : Material ℚ := ⟨⟨30, 40, 50⟩, ⟨0, 0, 0⟩, 0⟩

/-- Floor `y = 0` with normal up and material `m`. -/
def occFloor (m : Material ℚ) : Geometry ℚ := .plain ⟨⟨0, 1, 0⟩, ⟨0, 0, 0⟩⟩ (some m)

/-- Matte wall `x = 10` with normal `(-1,0,0)`. -/
def occWall : Geometry ℚ := .plain ⟨⟨-1, 0, 0⟩, ⟨10, 0, 0⟩⟩ (some matteGrey)

/-- First light: hidden from the floor point `(0,0,0)` by the wall, visible from the
wall point `(10, 15/2, 0)`. -/
def occLightA : R3 ℚ := ⟨6, 21 / 2, 0⟩

/-- Second light: visible from both points. -/
def occLightB : R3 ℚ := ⟨0, 15, 0⟩

/-- Primary ray that meets the floor at `(0,0,0)`. -/
def occRay : Ray ℚ := Ray.ofR3 ⟨-4, 3, 0⟩ ⟨4, -3, 0⟩

/-- Hit record of `occRay` on the floor. -/
def occHit1 : HitResult ℚ := HitResult.ofR3 ⟨0, 0, 0⟩ ⟨0, 1, 0⟩ 1

/-- Reflection of `occRay` at the floor. -/
def occRay2 : Ray ℚ := Ray.ofR3 ⟨0, 0, 0⟩ ⟨4 / 5, 3 / 5, 0⟩

/-- Hit record of `occRay2` on the wall. -/
def occHit2 : HitResult ℚ := HitResult.ofR3 ⟨10, 15 / 2, 0⟩ ⟨-1, 0, 0⟩ (25 / 2)

/-- Mirror floor `y = 0` with grey diffuse, normal up. -/
def capFloor : Geometry ℚ := .plain ⟨⟨0, 1, 0⟩, ⟨0, 0, 0⟩⟩ (some mirrorGrey)

/-- Mirror ceiling `y = 20` with grey diffuse, normal down, facing `capFloor`. -/
def capCeiling : Geometry ℚ := .plain ⟨⟨0, -1, 0⟩, ⟨0, 20, 0⟩⟩ (some mirrorGrey)

/-- Ray from between the two mirrors straight down. -/
def capRay : Ray ℚ := Ray.ofR3 ⟨0, 10, 0⟩ ⟨0, -1, 0⟩

/-- Hit record of `capRay` on the floor. -/
def capHit1 : HitResult ℚ := HitResult.ofR3 ⟨0, 0, 0⟩ ⟨0, 1, 0⟩ 10

/-- Reflection of `capRay` at the floor: straight up. -/
def capRay2 : Ray ℚ := Ray.ofR3 ⟨0, 0, 0⟩ ⟨0, 1, 0⟩

/-- Hit record of `capRay2` on the ceiling. -/
def capHit2 : HitResult ℚ := HitResult.ofR3 ⟨0, 20, 0⟩ ⟨0, -1, 0⟩ 20

/-- Reflection of `capRay2` at the ceiling: straight down. -/
def capRay3 : Ray ℚ := Ray.ofR3 ⟨0, 20, 0⟩ ⟨0, -1, 0⟩

/-- Plane `y = 0` with stored normal up and a specular-only material. -/
def shinyPlane : Geometry ℚ := .plain ⟨⟨0, 1, 0⟩, ⟨0, 0, 0⟩⟩ (some shinyOnly)

/-- Plane `y = 0` with stored normal up and a tinted matte material. -/
def tintPlane : Geometry ℚ := .plain ⟨⟨0, 1, 0⟩, ⟨0, 0, 0⟩⟩ (some matteTint)

/-- Ray that meets the plane `y = 0` from below. -/
def underRay : Ray ℚ := Ray.ofR3 ⟨0, -10, 0⟩ ⟨0, 1, 0⟩

/-- Light below the plane `y = 0`. -/
def underLight : R3 ℚ := ⟨0, -5, 0⟩

/-- Hit record of `underRay`, and of `capRay`, on the plane `y = 0`. -/
def underHit : HitResult ℚ := HitResult.ofR3 ⟨0, 0, 0⟩ ⟨0, 1, 0⟩ 10

/-- Sphere of radius 3 about the origin. -/
def ballThree : Sphere ℚ := ⟨⟨0, 0, 0⟩, 3⟩

/-- Origin of the rays aimed at `ballThree`. -/
def ballO : R3 ℚ := ⟨0, 0, 15⟩

/-- Direction from `ballO` toward the origin. -/
def ballD : R3 ℚ := ⟨0, 0, -1⟩

/-- Direction from `ballO` away from the origin. -/
def awayD : R3 ℚ := ⟨0, 0, 1⟩

/-- The zero direction. -/
def zeroD : R3 ℚ := ⟨0, 0, 0⟩

/-- Plane `z = 5` with normal toward `ballO`. -/
def nearPlane : Plain ℚ := ⟨⟨0, 0, 1⟩, ⟨0, 0, 5⟩⟩

/-- Plane `y = 0` with normal up. -/
def groundPlane : Plain ℚ := ⟨⟨0, 1, 0⟩, ⟨0, 0, 0⟩⟩

/-- The sphere `ballThree` as a scene geometry. -/
def ballGeom : Geometry ℚ := .sphere ballThree (some matteGrey)

/-- The plane `nearPlane` as a scene geometry. -/
def nearGeom : Geometry ℚ := .plain nearPlane (some matteGrey)

/-- Hit record of the ray from `ballO` along `ballD` on `ballThree`. -/
def ballHit : HitResult ℚ := HitResult.ofR3 ⟨0, 0, 3⟩ ⟨0, 0, 1⟩ 12

/-- Hit record of the ray from `ballO` along `ballD` on `nearPlane`. -/
def nearHit : HitResult ℚ := HitResult.ofR3 ⟨0, 0, 5⟩ ⟨0, 0, 1⟩ 10

/-- The record `Sphere::hit` fills in on a ray of zero direction. -/
def nanHit : HitResult ℚ := ⟨⟨Fl.nan, Fl.nan, Fl.nan⟩, ⟨Fl.nan, Fl.nan, Fl.nan⟩, Fl.nan⟩

/-! ## Arithmetic of finite floats -/

@[simp] theorem fl_ofTop_top {K : Type} : Fl.ofTop (⊤ : WithTop K) = Fl.pinf := rfl

@[simp] theorem fl_ofTop_coe {K : Type} (u : K) : Fl.ofTop ((u : K) : WithTop K) = Fl.fin u := rfl

section FlLemmas

variable {K : Type} [LinearOrderedField K]

@[simp] theorem fl_add_fin (a b : K) : (Fl.fin a + Fl.fin b : Fl K) = Fl.fin (a + b) := rfl

@[simp] theorem fl_sub_fin (a b : K) : (Fl.fin a - Fl.fin b : Fl K) = Fl.fin (a - b) := by
  show Fl.add (Fl.fin a) (Fl.neg (Fl.fin b)) = _
  simp only [Fl.neg, Fl.add, sub_eq_add_neg]

@[simp] theorem fl_mul_fin (a b : K) : (Fl.fin a * Fl.fin b : Fl K) = Fl.fin (a * b) := rfl

@[simp] theorem fl_neg_fin (a : K) : (-(Fl.fin a) : Fl K) = Fl.fin (-a) := rfl

theorem fl_div_fin (a b : K) (hb : b ≠ 0) : (Fl.fin a / Fl.fin b : Fl K) = Fl.fin (a / b) := by
  show Fl.div (Fl.fin a) (Fl.fin b) = _
  simp only [Fl.div, if_neg hb]

theorem fl_div_fin_zero (a : K) : (Fl.fin a / Fl.fin 0 : Fl K) = Fl.infOfSign a := by
  show Fl.div (Fl.fin a) (Fl.fin 0) = _
  simp only [Fl.div, if_true]

@[simp] theorem fl_div_fin_eq (a b : K) :
    (Fl.fin a / Fl.fin b : Fl K) = if b = 0 then Fl.infOfSign a else Fl.fin (a / b) := rfl

@[simp] theorem fl_lt_fin (a b : K) : Fl.lt (Fl.fin a) (Fl.fin b) = decide (a < b) := rfl

@[simp] theorem fl_abs_fin (a : K) : Fl.abs (Fl.fin a) = Fl.fin |a| := rfl

@[simp] theorem fl_sqrt_fin (sqrtf : K → K) (a : K) :
    Fl.sqrt sqrtf (Fl.fin a) = if a < 0 then Fl.nan else Fl.fin (sqrtf a) := rfl

@[simp] theorem fl_pow100_fin (a : K) : Fl.pow100 (Fl.fin a) = Fl.fin (a ^ 100) := rfl

@[simp] theorem fl_mul_nan (a : Fl K) : a * Fl.nan = Fl.nan := by
  cases a <;> rfl

@[simp] theorem fl_nan_mul (a : Fl K) : Fl.nan * a = Fl.nan := rfl

@[simp] theorem fl_add_nan (a : Fl K) : a + Fl.nan = Fl.nan := by
  cases a <;> rfl

@[simp] theorem fl_nan_add (a : Fl K) : Fl.nan + a = Fl.nan := rfl

@[simp] theorem fl_lt_nan (a : Fl K) : Fl.lt a Fl.nan = false := by
  cases a <;> rfl

@[simp] theorem fl_nan_lt (a : Fl K) : Fl.lt Fl.nan a = false := rfl

@[simp] theorem fl_lt_pinf_fin (a : K) : Fl.lt (Fl.pinf : Fl K) (Fl.fin a) = false := rfl

@[simp] theorem fl_lt_fin_pinf (a : K) : Fl.lt (Fl.fin a) (Fl.pinf : Fl K) = true := rfl

@[simp] theorem fl_pinf_mul_fin (b : K) : (Fl.pinf * Fl.fin b : Fl K) = Fl.infOfSign b := rfl

@[simp] theorem fl_fin_mul_pinf (a : K) : (Fl.fin a * Fl.pinf : Fl K) = Fl.infOfSign a := rfl

@[simp] theorem fl_sub_nan (a : Fl K) : a - Fl.nan = Fl.nan := by
  cases a <;> rfl

@[simp] theorem fl_nan_sub (a : Fl K) : Fl.nan - a = Fl.nan := rfl

@[simp] theorem fl_nan_div (a : Fl K) : Fl.nan / a = Fl.nan := rfl

@[simp] theorem fl_pow100_nan : Fl.pow100 (Fl.nan : Fl K) = Fl.nan := rfl

@[simp] theorem fl_infOfSign_zero : Fl.infOfSign (0 : K) = Fl.nan := by
  simp [Fl.infOfSign]

/-- The infinity with the sign of a number is never finite. -/
theorem fl_infOfSign_ne_fin (a t : K) : Fl.infOfSign a ≠ Fl.fin t := by
  unfold Fl.infOfSign
  split_ifs <;> simp

/-- No quotient by zero is finite. -/
theorem fl_div_zero_ne_fin (x : Fl K) (t : K) : x / Fl.fin 0 ≠ Fl.fin t := by
  cases x with
  | fin a =>
    rw [fl_div_fin_zero]
    exact fl_infOfSign_ne_fin a t
  | pinf =>
    show Fl.div Fl.pinf (Fl.fin 0) ≠ _
    simp [Fl.div]
  | ninf =>
    show Fl.div Fl.ninf (Fl.fin 0) ≠ _
    simp [Fl.div]
  | nan =>
    show Fl.div Fl.nan (Fl.fin 0) ≠ _
    simp [Fl.div]

/-- A bound that is not below `t0` is not below any smaller number. -/
theorem fl_lt_fin_mono (x : Fl K) (t t0 : K) (h : Fl.lt x (Fl.fin t0) = false) (hle : t ≤ t0) :
    Fl.lt x (Fl.fin t) = false := by
  cases x with
  | fin a =>
    simp only [fl_lt_fin, decide_eq_false_iff_not, not_lt] at h ⊢
    exact le_trans hle h
  | pinf => rfl
  | ninf => simp [Fl.lt] at h
  | nan => rfl

/-- Against a finite bound or `INFINITY`, "not above the bound" is `≤`. -/
theorem fl_lt_ofTop (t2 : WithTop K) (t : K) :
    Fl.lt (Fl.ofTop t2) (Fl.fin t) = false ↔ (t : WithTop K) ≤ t2 := by
  cases t2 with
  | top =>
    simp [Fl.ofTop]
  | coe u =>
    show Fl.lt (Fl.fin u) (Fl.fin t) = false ↔ _
    simp [WithTop.coe_le_coe]

/-! ## Finite vectors as `glm::vec3` -/

@[simp] theorem vec_dot_toVec (a b : R3 K) :
    Vec3.dot a.toVec b.toVec = Fl.fin (R3.dot a b) := by
  simp [Vec3.dot, R3.toVec, R3.dot]

@[simp] theorem vec_add_toVec (a b : R3 K) :
    Vec3.add a.toVec b.toVec = (R3.add a b).toVec := by
  simp [Vec3.add, R3.toVec, R3.add]

@[simp] theorem vec_sub_toVec (a b : R3 K) :
    Vec3.sub a.toVec b.toVec = (R3.sub a b).toVec := by
  simp [Vec3.sub, R3.toVec, R3.sub]

@[simp] theorem vec_smul_toVec (s : K) (v : R3 K) :
    Vec3.smul (Fl.fin s) v.toVec = (R3.smul s v).toVec := by
  simp [Vec3.smul, R3.toVec, R3.smul]

end FlLemmas

theorem toVec_injective {K : Type} (a b : R3 K) (h : a.toVec = b.toVec) : a = b := by
  cases a
  cases b
  simp only [R3.toVec, Vec3.mk.injEq, Fl.fin.injEq] at h
  simp [h.1, h.2.1, h.2.2]

/-! ## The intersection tests on finite rays -/

section HitLemmas

variable {K : Type} [LinearOrderedField K]

/-- The squared length of a finite vector is zero only for the zero vector. -/
theorem quadA_eq_zero (d : R3 K) (h : quadA d = 0) : d = ⟨0, 0, 0⟩ := by
  rcases d with ⟨dx, dy, dz⟩
  simp only [quadA, R3.dot] at h
  have hx : dx = 0 := by nlinarith [sq_nonneg dx, sq_nonneg dy, sq_nonneg dz]
  have hy : dy = 0 := by nlinarith [sq_nonneg dx, sq_nonneg dy, sq_nonneg dz]
  have hz : dz = 0 := by nlinarith [sq_nonneg dx, sq_nonneg dy, sq_nonneg dz]
  simp [hx, hy, hz]

/-- The squared length of a non-zero finite direction is positive. -/
theorem quadA_pos (d : R3 K) (hd : d ≠ ⟨0, 0, 0⟩) : 0 < quadA d := by
  have h0 : 0 ≤ quadA d := by
    simp only [quadA, R3.dot]
    nlinarith [sq_nonneg d.x, sq_nonneg d.y, sq_nonneg d.z]
  rcases lt_or_eq_of_le h0 with h | h
  · exact h
  · exact absurd (quadA_eq_zero d h.symm) hd

/-- The discriminant `Sphere::hit` computes on a finite ray. -/
theorem sphere_disc_ofR3 (s : Sphere K) (o d : R3 K) :
    Vec3.dot d.toVec (Vec3.sub o.toVec s.mC.toVec) * Vec3.dot d.toVec (Vec3.sub o.toVec s.mC.toVec) -
      Vec3.dot d.toVec d.toVec *
        (Vec3.dot (Vec3.sub o.toVec s.mC.toVec) (Vec3.sub o.toVec s.mC.toVec) -
          Fl.fin s.mR * Fl.fin s.mR) = Fl.fin (quadD s o d) := by
  simp [quadD, quadA, quadB, quadC]

/-- Method `Sphere::hit` on a finite ray of non-zero direction. -/
theorem sphere_hit_ofR3 (sqrtf : K → K) (s : Sphere K) (o d : R3 K) (t1 : K) (t2 : Fl K)
    (ha : quadA d ≠ 0) :
    s.hit sqrtf (Ray.ofR3 o d) t1 t2 =
      if quadD s o d < 0 then none
      else if nearRoot sqrtf s o d < t1 ∨ Fl.lt t2 (Fl.fin (nearRoot sqrtf s o d)) = true then none
      else some ⟨(R3.add o (R3.smul (nearRoot sqrtf s o d) d)).toVec,
        Vec3.sdiv (R3.sub (R3.add o (R3.smul (nearRoot sqrtf s o d) d)) s.mC).toVec
          (Fl.fin s.mR),
        Fl.fin (nearRoot sqrtf s o d)⟩ := by
  unfold Sphere.hit Ray.ofR3
  simp only [sphere_disc_ofR3]
  by_cases hD : quadD s o d < 0
  · simp [hD]
  · have ht : (-Vec3.dot d.toVec (Vec3.sub o.toVec s.mC.toVec) -
        Fl.sqrt sqrtf (Fl.fin (quadD s o d))) / Vec3.dot d.toVec d.toVec =
        Fl.fin (nearRoot sqrtf s o d) := by
      have ha' : R3.dot d d ≠ 0 := ha
      simp [hD, nearRoot, quadA, quadB, ha']
    simp only [ht]
    simp [hD]

/-- On a finite ray of zero direction `Sphere::hit` never reports a finite
parameter. -/
theorem sphere_hit_zero_dir (sqrtf : K → K) (s : Sphere K) (o d : R3 K) (t1 : K) (t2 : Fl K)
    (ha : quadA d = 0) (h : HitResult K) (hh : s.hit sqrtf (Ray.ofR3 o d) t1 t2 = some h)
    (t : K) : h.t ≠ Fl.fin t := by
  unfold Sphere.hit Ray.ofR3 at hh
  have hdd : Vec3.dot d.toVec d.toVec = Fl.fin 0 := by
    rw [vec_dot_toVec]
    exact congrArg Fl.fin ha
  simp only [hdd] at hh
  split_ifs at hh
  simp only [Option.some.injEq] at hh
  rw [← hh]
  exact fl_div_zero_ne_fin _ t

/-- Method `Plain::hit` on a finite ray. -/
theorem plain_hit_ofR3 (pl : Plain K) (o d : R3 K) (t1 : K) (t2 : Fl K) :
    pl.hit (Ray.ofR3 o d) t1 t2 =
      if |R3.dot d pl.mN| < FLT_EPSILON then none
      else if planeParam pl o d < t1 ∨ Fl.lt t2 (Fl.fin (planeParam pl o d)) = true then none
      else some ⟨(R3.add o (R3.smul (planeParam pl o d) d)).toVec, pl.mN.toVec,
        Fl.fin (planeParam pl o d)⟩ := by
  unfold Plain.hit Ray.ofR3
  have heps : (0 : K) < FLT_EPSILON := by
    unfold FLT_EPSILON
    positivity
  by_cases hg : |R3.dot d pl.mN| < FLT_EPSILON
  · simp [hg]
  · have hne : R3.dot d pl.mN ≠ 0 := by
      intro h0
      rw [h0, abs_zero] at hg
      exact hg heps
    simp [hg, hne, planeParam]

end HitLemmas

/-! ## Closest hit and interval filtering -/

section ClosestHit

variable {K : Type} [LinearOrderedField K]

/-- A successful `Sphere::hit` on a finite ray of non-zero direction reports the
near root, which lies inside the query interval. -/
theorem sphere_hit_bounds (sqrtf : K → K) (s : Sphere K) (o d : R3 K) (t1 : K) (t2 : Fl K)
    (ha : quadA d ≠ 0) (h : HitResult K) (hh : s.hit sqrtf (Ray.ofR3 o d) t1 t2 = some h) :
    0 ≤ quadD s o d ∧ h.t = Fl.fin (nearRoot sqrtf s o d) ∧ t1 ≤ nearRoot sqrtf s o d ∧
      Fl.lt t2 (Fl.fin (nearRoot sqrtf s o d)) = false := by
  rw [sphere_hit_ofR3 sqrtf s o d t1 t2 ha] at hh
  split_ifs at hh with c1 c2
  simp only [Option.some.injEq] at hh
  subst hh
  push_neg at c2
  exact ⟨not_lt.mp c1, rfl, c2.1, by simpa using c2.2⟩

/-- A successful `Sphere::hit` is reproduced over every interval that contains the
reported parameter. -/
theorem sphere_hit_widen (sqrtf : K → K) (s : Sphere K) (o d : R3 K) (a : K) (b : Fl K)
    (ha : quadA d ≠ 0) (h : HitResult K) (hh : s.hit sqrtf (Ray.ofR3 o d) a b = some h)
    (t1 : K) (t2 : Fl K) (h1 : t1 ≤ nearRoot sqrtf s o d)
    (h2 : Fl.lt t2 (Fl.fin (nearRoot sqrtf s o d)) = false) :
    s.hit sqrtf (Ray.ofR3 o d) t1 t2 = some h := by
  rw [sphere_hit_ofR3 sqrtf s o d a b ha] at hh
  rw [sphere_hit_ofR3 sqrtf s o d t1 t2 ha]
  split_ifs at hh with c1 c2
  rw [if_neg c1, if_neg (by rw [h2]; push_neg; exact ⟨h1, by simp⟩)]
  exact hh

/-- A successful `Plain::hit` on a finite ray reports the plane parameter, which
lies inside the query interval; the ray is not parallel to the plane. -/
theorem plain_hit_bounds (pl : Plain K) (o d : R3 K) (t1 : K) (t2 : Fl K)
    (h : HitResult K) (hh : pl.hit (Ray.ofR3 o d) t1 t2 = some h) :
    FLT_EPSILON ≤ |R3.dot d pl.mN| ∧ h.t = Fl.fin (planeParam pl o d) ∧
      t1 ≤ planeParam pl o d ∧ Fl.lt t2 (Fl.fin (planeParam pl o d)) = false := by
  rw [plain_hit_ofR3 pl o d t1 t2] at hh
  split_ifs at hh with c1 c2
  simp only [Option.some.injEq] at hh
  subst hh
  push_neg at c2
  exact ⟨not_lt.mp c1, rfl, c2.1, by simpa using c2.2⟩

/-- A successful `Plain::hit` is reproduced over every interval that contains the
reported parameter. -/
theorem plain_hit_widen (pl : Plain K) (o d : R3 K) (a : K) (b : Fl K)
    (h : HitResult K) (hh : pl.hit (Ray.ofR3 o d) a b = some h)
    (t1 : K) (t2 : Fl K) (h1 : t1 ≤ planeParam pl o d)
    (h2 : Fl.lt t2 (Fl.fin (planeParam pl o d)) = false) :
    pl.hit (Ray.ofR3 o d) t1 t2 = some h := by
  rw [plain_hit_ofR3 pl o d a b] at hh
  rw [plain_hit_ofR3 pl o d t1 t2]
  split_ifs at hh with c1 c2
  rw [if_neg c1, if_neg (by rw [h2]; push_neg; exact ⟨h1, by simp⟩)]
  exact hh

/-- On a finite ray of zero direction `Plain::hit` reports nothing. -/
theorem plain_hit_zero_dir (pl : Plain K) (o d : R3 K) (t1 : K) (t2 : Fl K)
    (ha : quadA d = 0) : pl.hit (Ray.ofR3 o d) t1 t2 = none := by
  rw [plain_hit_ofR3 pl o d t1 t2, quadA_eq_zero d ha]
  have heps : (0 : K) < FLT_EPSILON := by
    unfold FLT_EPSILON
    positivity
  simp [R3.dot, heps]

/-- The parameter the virtual `hit` reports on a finite ray of non-zero
direction is finite and lies inside the query interval. -/
theorem geom_hit_bounds (sqrtf : K → K) (g : Geometry K) (o d : R3 K) (t1 : K) (t2 : Fl K)
    (ha : quadA d ≠ 0) (h : HitResult K) (hh : g.hit sqrtf (Ray.ofR3 o d) t1 t2 = some h) :
    ∃ t, h.t = Fl.fin t ∧ t1 ≤ t ∧ Fl.lt t2 (Fl.fin t) = false := by
  cases g with
  | sphere s m =>
    have := sphere_hit_bounds sqrtf s o d t1 t2 ha h hh
    exact ⟨_, this.2.1, this.2.2.1, this.2.2.2⟩
  | plain pl m =>
    have := plain_hit_bounds pl o d t1 t2 h hh
    exact ⟨_, this.2.1, this.2.2.1, this.2.2.2⟩

/-- Interval independence for the virtual `hit` on a finite ray of non-zero
direction. -/
theorem geom_hit_widen (sqrtf : K → K) (g : Geometry K) (o d : R3 K) (a : K) (b : Fl K)
    (ha : quadA d ≠ 0) (h : HitResult K) (hh : g.hit sqrtf (Ray.ofR3 o d) a b = some h)
    (t : K) (ht : h.t = Fl.fin t) (t1 : K) (t2 : Fl K) (h1 : t1 ≤ t)
    (h2 : Fl.lt t2 (Fl.fin t) = false) :
    g.hit sqrtf (Ray.ofR3 o d) t1 t2 = some h := by
  cases g with
  | sphere s m =>
    have hb := sphere_hit_bounds sqrtf s o d a b ha h hh
    have he : t = nearRoot sqrtf s o d := by
      have := hb.2.1
      rw [ht] at this
      exact Fl.fin.inj this
    subst he
    exact sphere_hit_widen sqrtf s o d a b ha h hh t1 t2 h1 h2
  | plain pl m =>
    have hb := plain_hit_bounds pl o d a b h hh
    have he : t = planeParam pl o d := by
      have := hb.2.1
      rw [ht] at this
      exact Fl.fin.inj this
    subst he
    exact plain_hit_widen pl o d a b h hh t1 t2 h1 h2

/-- The record of a successful virtual `hit` does not depend on the interval. -/
theorem geom_hit_unique (sqrtf : K → K) (g : Geometry K) (ray : Ray K) (a t1 : K)
    (b t2 : Fl K) (h h' : HitResult K) (hh : g.hit sqrtf ray a b = some h)
    (hh' : g.hit sqrtf ray t1 t2 = some h') : h = h' := by
  cases g with
  | sphere s m =>
    simp only [Geometry.hit, Sphere.hit] at hh hh'
    split_ifs at hh hh' with c1 c2 c3
    simp only [Option.some.injEq] at hh hh'
    rw [← hh, ← hh']
  | plain pl m =>
    simp only [Geometry.hit, Plain.hit] at hh hh'
    split_ifs at hh hh' with c1 c2 c3
    simp only [Option.some.injEq] at hh hh'
    rw [← hh, ← hh']

/-- On a finite ray of zero direction no geometry reports a finite parameter. -/
theorem geom_hit_zero_dir (sqrtf : K → K) (g : Geometry K) (o d : R3 K) (t1 : K) (t2 : Fl K)
    (ha : quadA d = 0) (h : HitResult K) (hh : g.hit sqrtf (Ray.ofR3 o d) t1 t2 = some h)
    (t : K) : h.t ≠ Fl.fin t := by
  cases g with
  | sphere s m => exact sphere_hit_zero_dir sqrtf s o d t1 t2 ha h hh t
  | plain pl m =>
    have hnone := plain_hit_zero_dir pl o d t1 t2 ha
    simp only [Geometry.hit] at hh
    rw [hnone] at hh
    cases hh

/-- Specification of the closest-hit loop on a finite ray of non-zero direction,
started from interval end `t2` and running best `best`: if every listed geometry
misses over `[t1, t2]` the running best is returned unchanged; otherwise the loop
returns a listed geometry together with its record over `[t1, t2]`, whose
parameter is finite and least among the records of all listed geometries over
`[t1, t2]`. -/
theorem closestLoop_spec (sqrtf : K → K) (o d : R3 K) (t1 : K) (ha : quadA d ≠ 0)
    (gs : List (Geometry K)) :
    ∀ (t2 : Fl K) (best : Option (HitResult K × Geometry K)),
      ((∀ g ∈ gs, g.hit sqrtf (Ray.ofR3 o d) t1 t2 = none) ∧
        closestLoop sqrtf (Ray.ofR3 o d) t1 gs t2 best = best) ∨
      (∃ h g t, closestLoop sqrtf (Ray.ofR3 o d) t1 gs t2 best = some (h, g) ∧ g ∈ gs ∧
        g.hit sqrtf (Ray.ofR3 o d) t1 t2 = some h ∧ h.t = Fl.fin t ∧
        ∀ g' ∈ gs, ∀ h' t', g'.hit sqrtf (Ray.ofR3 o d) t1 t2 = some h' →
          h'.t = Fl.fin t' → t ≤ t') := by
  induction gs with
  | nil =>
    intro t2 best
    left
    exact ⟨by simp, rfl⟩
  | cons g rest ih =>
    intro t2 best
    cases hg : g.hit sqrtf (Ray.ofR3 o d) t1 t2 with
    | none =>
      rcases ih t2 best with ⟨hall, hres⟩ | ⟨h, g', t, hres, hmem, hhit, ht, hmin⟩
      · left
        refine ⟨?_, ?_⟩
        · intro g' hg'
          rcases List.mem_cons.mp hg' with rfl | hin
          · exact hg
          · exact hall g' hin
        · simp only [closestLoop, hg]
          exact hres
      · right
        refine ⟨h, g', t, ?_, List.mem_cons_of_mem _ hmem, hhit, ht, ?_⟩
        · simp only [closestLoop, hg]
          exact hres
        · intro g'' hg'' h'' t'' hh'' ht''
          rcases List.mem_cons.mp hg'' with rfl | hin
          · rw [hg] at hh''
            cases hh''
          · exact hmin g'' hin h'' t'' hh'' ht''
    | some h0 =>
      right
      obtain ⟨t0, ht0, hb01, hb02⟩ := geom_hit_bounds sqrtf g o d t1 t2 ha h0 hg
      rcases ih h0.t (some (h0, g)) with ⟨hall, hres⟩ | ⟨h, g', t, hres, hmem, hhit, ht, hmin⟩
      · refine ⟨h0, g, t0, ?_, List.mem_cons_self _ _, hg, ht0, ?_⟩
        · simp only [closestLoop, hg]
          exact hres
        · intro g'' hg'' h'' t'' hh'' ht''
          rcases List.mem_cons.mp hg'' with rfl | hin
          · rw [hg] at hh''
            cases hh''
            rw [ht0] at ht''
            exact le_of_eq (Fl.fin.inj ht'')
          · by_contra hlt
            push_neg at hlt
            obtain ⟨u, hu, hu1, _⟩ := geom_hit_bounds sqrtf g'' o d t1 t2 ha h'' hh''
            have hut : u = t'' := Fl.fin.inj (hu.symm.trans ht'')
            subst hut
            have hw := geom_hit_widen sqrtf g'' o d t1 t2 ha h'' hh'' u hu t1 h0.t hu1
              (by rw [ht0]; simp [le_of_lt hlt])
            rw [hall g'' hin] at hw
            cases hw
      · obtain ⟨u, hu, hu1, hu2⟩ := geom_hit_bounds sqrtf g' o d t1 h0.t ha h hhit
        have hut : u = t := Fl.fin.inj (hu.symm.trans ht)
        subst hut
        have hle : u ≤ t0 := by
          rw [ht0] at hu2
          simpa using hu2
        refine ⟨h, g', u, ?_, List.mem_cons_of_mem _ hmem, ?_, ht, ?_⟩
        · simp only [closestLoop, hg]
          exact hres
        · exact geom_hit_widen sqrtf g' o d t1 h0.t ha h hhit u ht t1 t2 hu1
            (fl_lt_fin_mono t2 u t0 hb02 hle)
        · intro g'' hg'' h'' t'' hh'' ht''
          rcases List.mem_cons.mp hg'' with rfl | hin
          · rw [hg] at hh''
            cases hh''
            rw [ht0] at ht''
            rw [← Fl.fin.inj ht'']
            exact hle
          · by_cases hc : t'' ≤ t0
            · obtain ⟨v, hv, hv1, _⟩ := geom_hit_bounds sqrtf g'' o d t1 t2 ha h'' hh''
              have hvt : v = t'' := Fl.fin.inj (hv.symm.trans ht'')
              subst hvt
              exact hmin g'' hin h'' v
                (geom_hit_widen sqrtf g'' o d t1 t2 ha h'' hh'' v hv t1 h0.t hv1
                  (by rw [ht0]; simp [hc])) ht''
            · push_neg at hc
              exact le_trans hle (le_of_lt hc)

/-- The closest-hit loop keeps no hit when every geometry misses (any ray). -/
theorem closestLoop_none (sqrtf : K → K) (ray : Ray K) (t1 : K) (gs : List (Geometry K)) :
    ∀ (t2 : Fl K) (best : Option (HitResult K × Geometry K)),
      (∀ g ∈ gs, g.hit sqrtf ray t1 t2 = none) →
        closestLoop sqrtf ray t1 gs t2 best = best := by
  induction gs with
  | nil =>
    intro t2 best _
    rfl
  | cons g rest ih =>
    intro t2 best hmiss
    simp only [closestLoop, hmiss g (List.mem_cons_self _ _)]
    exact ih t2 best (fun g' hg' => hmiss g' (List.mem_cons_of_mem _ hg'))

/-- The geometry selected by the closest-hit loop is a member of the list or the
running best (any ray). -/
theorem closestLoop_mem_aux (sqrtf : K → K) (ray : Ray K) (t1 : K) (gs : List (Geometry K)) :
    ∀ (t2 : Fl K) (best : Option (HitResult K × Geometry K)) (h : HitResult K)
      (g : Geometry K), closestLoop sqrtf ray t1 gs t2 best = some (h, g) →
        g ∈ gs ∨ best = some (h, g) := by
  induction gs with
  | nil =>
    intro t2 best h g hres
    right
    exact hres
  | cons g0 rest ih =>
    intro t2 best h g hres
    simp only [closestLoop] at hres
    cases hg : g0.hit sqrtf ray t1 t2 with
    | none =>
      rw [hg] at hres
      rcases ih t2 best h g hres with hin | hb
      · exact Or.inl (List.mem_cons_of_mem _ hin)
      · exact Or.inr hb
    | some h0 =>
      rw [hg] at hres
      rcases ih _ _ h g hres with hin | hb
      · exact Or.inl (List.mem_cons_of_mem _ hin)
      · left
        simp only [Option.some.injEq, Prod.mk.injEq] at hb
        rw [← hb.2]
        exact List.mem_cons_self _ _

/-- The geometry selected by the closest-hit loop is a member of the list. -/
theorem closestLoop_mem (sqrtf : K → K) (ray : Ray K) (t1 : K) (gs : List (Geometry K))
    (t2 : Fl K) (h : HitResult K) (g : Geometry K)
    (hres : closestLoop sqrtf ray t1 gs t2 none = some (h, g)) : g ∈ gs := by
  rcases closestLoop_mem_aux sqrtf ray t1 gs t2 none h g hres with hin | hb
  · exact hin
  · cases hb

/-- C1. Closest-hit selection in the first loop of `Scene::rayColor`, for every
geometry list, finite ray and interval `[t1, t2]` with `t2` finite or
`INFINITY`: when some listed geometry is hit at a parameter within `[t1, t2]`,
the pair kept after the loop is a listed geometry together with its own hit
record over `[t1, t2]`, and the parameter of that record is the least among the
records of all listed geometries hit within `[t1, t2]`; of two geometries hit at
different parameters the one with the smaller parameter is selected in either
insertion order. -/
theorem closest_hit_selection (sqrtf : K → K) (o d : R3 K) (t1 : K) (t2 : WithTop K) :
    (∀ gs : List (Geometry K),
      (∃ g ∈ gs, ∃ h t, g.hit sqrtf (Ray.ofR3 o d) t1 (Fl.ofTop t2) = some h ∧
        h.t = Fl.fin t) →
      ∃ h g t, closestLoop sqrtf (Ray.ofR3 o d) t1 gs (Fl.ofTop t2) none = some (h, g) ∧
        g ∈ gs ∧ g.hit sqrtf (Ray.ofR3 o d) t1 (Fl.ofTop t2) = some h ∧ h.t = Fl.fin t ∧
        t1 ≤ t ∧ (t : WithTop K) ≤ t2 ∧
        ∀ g' ∈ gs, ∀ h' t', g'.hit sqrtf (Ray.ofR3 o d) t1 (Fl.ofTop t2) = some h' →
          h'.t = Fl.fin t' → t ≤ t') ∧
    (∀ (g1 g2 : Geometry K) (h1 h2 : HitResult K) (u1 u2 : K),
      g1.hit sqrtf (Ray.ofR3 o d) t1 (Fl.ofTop t2) = some h1 →
      g2.hit sqrtf (Ray.ofR3 o d) t1 (Fl.ofTop t2) = some h2 →
      h1.t = Fl.fin u1 → h2.t = Fl.fin u2 → u1 < u2 →
        closestLoop sqrtf (Ray.ofR3 o d) t1 [g1, g2] (Fl.ofTop t2) none = some (h1, g1) ∧
        closestLoop sqrtf (Ray.ofR3 o d) t1 [g2, g1] (Fl.ofTop t2) none = some (h1, g1)) := by
  have key : ∀ gs : List (Geometry K),
      (∃ g ∈ gs, ∃ h t, g.hit sqrtf (Ray.ofR3 o d) t1 (Fl.ofTop t2) = some h ∧
        h.t = Fl.fin t) →
      ∃ h g t, closestLoop sqrtf (Ray.ofR3 o d) t1 gs (Fl.ofTop t2) none = some (h, g) ∧
        g ∈ gs ∧ g.hit sqrtf (Ray.ofR3 o d) t1 (Fl.ofTop t2) = some h ∧ h.t = Fl.fin t ∧
        t1 ≤ t ∧ (t : WithTop K) ≤ t2 ∧
        ∀ g' ∈ gs, ∀ h' t', g'.hit sqrtf (Ray.ofR3 o d) t1 (Fl.ofTop t2) = some h' →
          h'.t = Fl.fin t' → t ≤ t' := by
    intro gs hex
    obtain ⟨g0, hg0, h0, u0, hh0, hu0⟩ := hex
    by_cases ha : quadA d = 0
    · exact absurd hu0 (geom_hit_zero_dir sqrtf g0 o d t1 _ ha h0 hh0 u0)
    · rcases closestLoop_spec sqrtf o d t1 ha gs (Fl.ofTop t2) none with
        ⟨hall, _⟩ | ⟨h, g, t, hres, hmem, hhit, ht, hmin⟩
      · rw [hall g0 hg0] at hh0
        cases hh0
      · obtain ⟨u, hu, hu1, hu2⟩ := geom_hit_bounds sqrtf g o d t1 _ ha h hhit
        have hut : u = t := Fl.fin.inj (hu.symm.trans ht)
        subst hut
        exact ⟨h, g, u, hres, hmem, hhit, ht, hu1, (fl_lt_ofTop t2 u).mp hu2, hmin⟩
  refine ⟨key, ?_⟩
  intro g1 g2 h1 h2 u1 u2 e1 e2 f1 f2 hlt
  have pick : ∀ gs : List (Geometry K), g1 ∈ gs → (∀ g ∈ gs, g = g1 ∨ g = g2) →
      closestLoop sqrtf (Ray.ofR3 o d) t1 gs (Fl.ofTop t2) none = some (h1, g1) := by
    intro gs hin hall
    obtain ⟨h, g, t, hres, hmem, hhit, ht, _, _, hmin⟩ := key gs ⟨g1, hin, h1, u1, e1, f1⟩
    rcases hall g hmem with rfl | rfl
    · rw [e1] at hhit
      cases hhit
      exact hres
    · rw [e2] at hhit
      cases hhit
      have htu : t = u2 := Fl.fin.inj (ht.symm.trans f2)
      subst htu
      exact absurd (hmin g1 hin h1 u1 e1 f1) (not_le.mpr hlt)
  constructor
  · apply pick
    · simp
    · intro g hg
      simpa using hg
  · apply pick
    · simp
    · intro g hg
      rcases List.mem_cons.mp hg with rfl | hg'
      · right; rfl
      · left; simpa using hg'

end ClosestHit

section IntervalFilter

variable {K : Type} [LinearOrderedField K]

/-- C2 (amended). Interval filtering in `Sphere::hit` and `Plain::hit`, for
finite rays and intervals `[t1, t2]` with `t2` finite or `INFINITY`.  For a
sphere and a ray of non-zero direction: `hit` returns true only with a reported
`t` satisfying `t1 ≤ t ≤ t2`, and it returns true exactly when the discriminant
is non-negative and the near root lies in `[t1, t2]`, bounds included (so a near
root below `t1` or above `t2` is no hit, and one exactly at a bound is a hit).
For a plane and every finite ray: the same with the plane parameter, `hit`
returning true exactly when `|d·n| ≥ FLT_EPSILON` and the parameter lies in
`[t1, t2]`, bounds included. -/
theorem hit_interval_filter (sqrtf : K → K) (o d : R3 K) (t1 : K) (t2 : WithTop K) :
    (∀ s : Sphere K, d ≠ ⟨0, 0, 0⟩ →
      (∀ h, s.hit sqrtf (Ray.ofR3 o d) t1 (Fl.ofTop t2) = some h →
        h.t = Fl.fin (nearRoot sqrtf s o d) ∧ t1 ≤ nearRoot sqrtf s o d ∧
          ((nearRoot sqrtf s o d : K) : WithTop K) ≤ t2) ∧
      ((∃ h, s.hit sqrtf (Ray.ofR3 o d) t1 (Fl.ofTop t2) = some h) ↔
        (0 ≤ quadD s o d ∧ t1 ≤ nearRoot sqrtf s o d ∧
          ((nearRoot sqrtf s o d : K) : WithTop K) ≤ t2)) ∧
      (0 ≤ quadD s o d →
        ∃ h, s.hit sqrtf (Ray.ofR3 o d) (nearRoot sqrtf s o d)
          (Fl.fin (nearRoot sqrtf s o d)) = some h)) ∧
    (∀ pl : Plain K,
      (∀ h, pl.hit (Ray.ofR3 o d) t1 (Fl.ofTop t2) = some h →
        h.t = Fl.fin (planeParam pl o d) ∧ t1 ≤ planeParam pl o d ∧
          ((planeParam pl o d : K) : WithTop K) ≤ t2) ∧
      ((∃ h, pl.hit (Ray.ofR3 o d) t1 (Fl.ofTop t2) = some h) ↔
        (FLT_EPSILON ≤ |R3.dot d pl.mN| ∧ t1 ≤ planeParam pl o d ∧
          ((planeParam pl o d : K) : WithTop K) ≤ t2)) ∧
      (FLT_EPSILON ≤ |R3.dot d pl.mN| →
        ∃ h, pl.hit (Ray.ofR3 o d) (planeParam pl o d)
          (Fl.fin (planeParam pl o d)) = some h)) := by
  constructor
  · intro s hd
    have ha : quadA d ≠ 0 := ne_of_gt (quadA_pos d hd)
    have hiff : ∀ (a : K) (b : Fl K), (∃ h, s.hit sqrtf (Ray.ofR3 o d) a b = some h) ↔
        (0 ≤ quadD s o d ∧ a ≤ nearRoot sqrtf s o d ∧
          Fl.lt b (Fl.fin (nearRoot sqrtf s o d)) = false) := by
      intro a b
      constructor
      · rintro ⟨h, hh⟩
        have hb := sphere_hit_bounds sqrtf s o d a b ha h hh
        exact ⟨hb.1, hb.2.2.1, hb.2.2.2⟩
      · rintro ⟨hD, h1, h2⟩
        rw [sphere_hit_ofR3 sqrtf s o d a b ha, if_neg (not_lt.mpr hD),
          if_neg (by rw [h2]; push_neg; exact ⟨h1, by simp⟩)]
        exact ⟨_, rfl⟩
    refine ⟨?_, ?_, ?_⟩
    · intro h hh
      have hb := sphere_hit_bounds sqrtf s o d t1 _ ha h hh
      exact ⟨hb.2.1, hb.2.2.1, (fl_lt_ofTop t2 _).mp hb.2.2.2⟩
    · rw [hiff, fl_lt_ofTop]
    · intro hD
      exact (hiff _ _).mpr ⟨hD, le_refl _, by simp⟩
  · intro pl
    have hiff : ∀ (a : K) (b : Fl K), (∃ h, pl.hit (Ray.ofR3 o d) a b = some h) ↔
        (FLT_EPSILON ≤ |R3.dot d pl.mN| ∧ a ≤ planeParam pl o d ∧
          Fl.lt b (Fl.fin (planeParam pl o d)) = false) := by
      intro a b
      constructor
      · rintro ⟨h, hh⟩
        have hb := plain_hit_bounds pl o d a b h hh
        exact ⟨hb.1, hb.2.2.1, hb.2.2.2⟩
      · rintro ⟨hD, h1, h2⟩
        rw [plain_hit_ofR3 pl o d a b, if_neg (not_lt.mpr hD),
          if_neg (by rw [h2]; push_neg; exact ⟨h1, by simp⟩)]
        exact ⟨_, rfl⟩
    refine ⟨?_, ?_, ?_⟩
    · intro h hh
      have hb := plain_hit_bounds pl o d t1 _ h hh
      exact ⟨hb.2.1, hb.2.2.1, (fl_lt_ofTop t2 _).mp hb.2.2.2⟩
    · rw [hiff, fl_lt_ofTop]
    · intro hD
      exact (hiff _ _).mpr ⟨hD, le_refl _, by simp⟩

end IntervalFilter

/-! ## Depth cap, background and output range -/

section Shading

variable {K : Type} [LinearOrderedField K]

/-- A clamped component is NaN or lies between the clamp bounds. -/
theorem fl_clamp_nanOrInRange (x : Fl K) (lo hi : K) (h : lo ≤ hi) :
    (Fl.min (Fl.max x (Fl.fin lo)) (Fl.fin hi)).NanOrInRange lo hi := by
  cases x with
  | fin a =>
    right
    by_cases c1 : a < lo
    · refine ⟨lo, ?_, le_refl _, h⟩
      simp [Fl.min, Fl.max, c1, not_lt.mpr h]
    · by_cases c2 : hi < a
      · refine ⟨hi, ?_, h, le_refl _⟩
        simp [Fl.min, Fl.max, c1, c2]
      · refine ⟨a, ?_, not_lt.mp c1, not_lt.mp c2⟩
        simp [Fl.min, Fl.max, c1, c2]
  | pinf =>
    right
    refine ⟨hi, ?_, h, le_refl _⟩
    simp [Fl.min, Fl.max, Fl.lt]
  | ninf =>
    right
    refine ⟨lo, ?_, le_refl _, h⟩
    simp [Fl.min, Fl.max, Fl.lt, not_lt.mpr h]
  | nan =>
    left
    simp [Fl.min, Fl.max, Fl.lt]

/-- A clamped finite component lies between the clamp bounds. -/
theorem fl_clamp_inRange (a : K) (lo hi : K) (h : lo ≤ hi) :
    (Fl.min (Fl.max (Fl.fin a) (Fl.fin lo)) (Fl.fin hi)).InRange lo hi := by
  rcases fl_clamp_nanOrInRange (Fl.fin a) lo hi h with hn | hr
  · exfalso
    by_cases c1 : a < lo
    · simp [Fl.min, Fl.max, c1, not_lt.mpr h] at hn
    · by_cases c2 : hi < a
      · simp [Fl.min, Fl.max, c1, c2] at hn
      · simp [Fl.min, Fl.max, c1, c2] at hn
  · exact hr

/-- Every component of a clamped colour is NaN or lies between the clamp
bounds. -/
theorem Vec3.clamp_nanOrInRange (v : Vec3 K) (lo hi : K) (h : lo ≤ hi) :
    (Vec3.clamp v lo hi).NanOrInRange lo hi :=
  ⟨fl_clamp_nanOrInRange v.x lo hi h, fl_clamp_nanOrInRange v.y lo hi h,
    fl_clamp_nanOrInRange v.z lo hi h⟩

/-- Every component of a clamped finite colour lies between the clamp bounds. -/
theorem Vec3.clamp_inRange (a : R3 K) (lo hi : K) (h : lo ≤ hi) :
    (Vec3.clamp a.toVec lo hi).InRange lo hi :=
  ⟨fl_clamp_inRange a.x lo hi h, fl_clamp_inRange a.y lo hi h, fl_clamp_inRange a.z lo hi h⟩

/-- A colour in range is finite. -/
theorem Vec3.finite_of_inRange (v : Vec3 K) (lo hi : K) (h : v.InRange lo hi) : v.Finite := by
  obtain ⟨⟨a, ha, _⟩, ⟨b, hb, _⟩, ⟨c, hc, _⟩⟩ := h
  refine ⟨⟨a, b, c⟩, ?_⟩
  cases v
  simp only at ha hb hc
  simp [R3.toVec, ha, hb, hc]

/-- A colour in range is NaN-or-in-range. -/
theorem Vec3.nanOrInRange_of_inRange (v : Vec3 K) (lo hi : K) (h : v.InRange lo hi) :
    v.NanOrInRange lo hi :=
  ⟨Or.inr h.1, Or.inr h.2.1, Or.inr h.2.2⟩

/-- At depth 2 `rayColor` returns black at once. -/
theorem rayColor_cap (sqrtf : K → K) (scene : Scene K) (fuel : Nat) (ray : Ray K) (t1 : K)
    (t2 : Fl K) :
    rayColor sqrtf scene (fuel + 1) ray t1 t2 2 = .ok ⟨Vec3.splat 0, 0, [2]⟩ := by
  simp [rayColor]

/-- One activation of `rayColor` below the cap on a ray that misses. -/
theorem rayColor_miss (sqrtf : K → K) (scene : Scene K) (fuel : Nat) (ray : Ray K) (t1 : K)
    (t2 : Fl K) (n : Int) (hn : n ≠ 2)
    (hc : closestLoop sqrtf ray t1 scene.mGeometryList t2 none = none) :
    rayColor sqrtf scene (fuel + 1) ray t1 t2 n =
      if n = 0 then .ok ⟨Vec3.splat 20, scene.mGeometryList.length, [n]⟩
      else .ok ⟨Vec3.splat 0, scene.mGeometryList.length, [n]⟩ := by
  simp only [rayColor, if_neg hn, hc]

/-- One activation of `rayColor` below the cap on a ray that hits a geometry
without material. -/
theorem rayColor_hit_null (sqrtf : K → K) (scene : Scene K) (fuel : Nat) (ray : Ray K) (t1 : K)
    (t2 : Fl K) (n : Int) (hn : n ≠ 2) (fhr : HitResult K) (g : Geometry K)
    (hc : closestLoop sqrtf ray t1 scene.mGeometryList t2 none = some (fhr, g))
    (hm : g.mat = none) :
    rayColor sqrtf scene (fuel + 1) ray t1 t2 n = .error .nullMaterial := by
  simp only [rayColor, if_neg hn, hc, hm]

/-- One activation of `rayColor` below the cap on a ray that hits a geometry with
a material: the result in terms of the nested activation. -/
theorem rayColor_hit (sqrtf : K → K) (scene : Scene K) (fuel : Nat) (ray : Ray K) (t1 : K)
    (t2 : Fl K) (n : Int) (hn : n ≠ 2) (fhr : HitResult K) (g : Geometry K)
    (m : Material K)
    (hc : closestLoop sqrtf ray t1 scene.mGeometryList t2 none = some (fhr, g))
    (hm : g.mat = some m) :
    rayColor sqrtf scene (fuel + 1) ray t1 t2 n =
      match rayColor sqrtf scene fuel (reflectionRay sqrtf ray fhr) (1 / 100) Fl.pinf (n + 1) with
      | .error e => .error e
      | .ok sub =>
        .ok ⟨Vec3.clamp (Vec3.add
              (lightLoop sqrtf scene.mGeometryList ray fhr m scene.mPointLightList
                (Vec3.smul (Fl.fin (2 / 5)) m.mKd.toVec, 0)).1
              (Vec3.smul (Fl.fin m.mKm) sub.color)) 0 255,
            scene.mGeometryList.length +
              (lightLoop sqrtf scene.mGeometryList ray fhr m scene.mPointLightList
                (Vec3.smul (Fl.fin (2 / 5)) m.mKd.toVec, 0)).2 + sub.hitTests,
            n :: sub.calls⟩ := by
  simp only [rayColor, if_neg hn, hc, hm]

/-- The colours `rayColor` returns on a miss and at the cap lie in `[0, 255]`. -/
theorem splat_inRange :
    (Vec3.splat (0 : K)).InRange 0 255 ∧ (Vec3.splat (20 : K)).InRange 0 255 := by
  constructor
  · exact ⟨⟨0, rfl, by norm_num, by norm_num⟩, ⟨0, rfl, by norm_num, by norm_num⟩,
      ⟨0, rfl, by norm_num, by norm_num⟩⟩
  · exact ⟨⟨20, rfl, by norm_num, by norm_num⟩, ⟨20, rfl, by norm_num, by norm_num⟩,
      ⟨20, rfl, by norm_num, by norm_num⟩⟩

/-- Without lights, the colour of a hit whose reflected ray returned a finite
colour lies in `[0, 255]`. -/
theorem hit_color_inRange (m : Material K) (c : Vec3 K) (hc : c.Finite) (k : Nat) :
    (Vec3.clamp (Vec3.add (Vec3.smul (Fl.fin (2 / 5)) m.mKd.toVec, k).1
      (Vec3.smul (Fl.fin m.mKm) c)) 0 255).InRange 0 255 := by
  obtain ⟨a, rfl⟩ := hc
  simp only [vec_smul_toVec, vec_add_toVec]
  exact Vec3.clamp_inRange _ 0 255 (by norm_num)

/-- Shape of a run entered at depth 1 with at least two units of fuel: either a
geometry without material is hit, or the run returns after activations at depth
1, or at depths 1 and 2, with a colour whose components are NaN or in
`[0, 255]`, and in `[0, 255]` when the scene has no lights. -/
theorem rayColor_depth_one (sqrtf : K → K) (scene : Scene K) (fuel : Nat) (ray : Ray K)
    (t1 : K) (t2 : Fl K) :
    rayColor sqrtf scene (fuel + 2) ray t1 t2 1 = .error .nullMaterial ∨
    ∃ r, rayColor sqrtf scene (fuel + 2) ray t1 t2 1 = .ok r ∧
      r.color.NanOrInRange 0 255 ∧ (scene.mPointLightList = [] → r.color.InRange 0 255) ∧
      (r.calls = [1] ∨ r.calls = [1, 2]) := by
  cases hc : closestLoop sqrtf ray t1 scene.mGeometryList t2 none with
  | none =>
    right
    rw [rayColor_miss sqrtf scene (fuel + 1) ray t1 t2 1 (by norm_num) hc]
    simp only [one_ne_zero, if_false]
    exact ⟨_, rfl, Vec3.nanOrInRange_of_inRange _ _ _ splat_inRange.1,
      fun _ => splat_inRange.1, Or.inl rfl⟩
  | some hg =>
    obtain ⟨fhr, g⟩ := hg
    cases hm : g.mat with
    | none =>
      left
      exact rayColor_hit_null sqrtf scene (fuel + 1) ray t1 t2 1 (by norm_num) fhr g hc hm
    | some m =>
      right
      rw [rayColor_hit sqrtf scene (fuel + 1) ray t1 t2 1 (by norm_num) fhr g m hc hm]
      rw [show (1 : Int) + 1 = 2 by norm_num, rayColor_cap]
      refine ⟨_, rfl, Vec3.clamp_nanOrInRange _ 0 255 (by norm_num), ?_, Or.inr rfl⟩
      intro hl
      simp only [hl, lightLoop]
      exact hit_color_inRange m _ (Vec3.finite_of_inRange _ 0 255 splat_inRange.1) 0

/-- Shape of a run entered at depth 0 with at least three units of fuel. -/
theorem rayColor_depth_zero (sqrtf : K → K) (scene : Scene K) (fuel : Nat) (ray : Ray K)
    (t1 : K) (t2 : Fl K) :
    rayColor sqrtf scene (fuel + 3) ray t1 t2 0 = .error .nullMaterial ∨
    ∃ r, rayColor sqrtf scene (fuel + 3) ray t1 t2 0 = .ok r ∧
      r.color.NanOrInRange 0 255 ∧ (scene.mPointLightList = [] → r.color.InRange 0 255) ∧
      (r.calls = [0] ∨ r.calls = [0, 1] ∨ r.calls = [0, 1, 2]) := by
  cases hc : closestLoop sqrtf ray t1 scene.mGeometryList t2 none with
  | none =>
    right
    rw [rayColor_miss sqrtf scene (fuel + 2) ray t1 t2 0 (by norm_num) hc]
    simp only [if_true]
    exact ⟨_, rfl, Vec3.nanOrInRange_of_inRange _ _ _ splat_inRange.2,
      fun _ => splat_inRange.2, Or.inl rfl⟩
  | some hg =>
    obtain ⟨fhr, g⟩ := hg
    cases hm : g.mat with
    | none =>
      left
      exact rayColor_hit_null sqrtf scene (fuel + 2) ray t1 t2 0 (by norm_num) fhr g hc hm
    | some m =>
      rw [rayColor_hit sqrtf scene (fuel + 2) ray t1 t2 0 (by norm_num) fhr g m hc hm]
      rw [show (0 : Int) + 1 = 1 by norm_num]
      rcases rayColor_depth_one sqrtf scene fuel (reflectionRay sqrtf ray fhr) (1 / 100)
        Fl.pinf with he | ⟨r, hr, _, hfin, hcalls⟩
      · left
        rw [he]
      · right
        rw [hr]
        refine ⟨_, rfl, Vec3.clamp_nanOrInRange _ 0 255 (by norm_num), ?_, ?_⟩
        · intro hl
          simp only [hl, lightLoop]
          exact hit_color_inRange m _ (Vec3.finite_of_inRange _ 0 255 (hfin hl)) 0
        · rcases hcalls with h1 | h2
          · right; left
            simp only [h1]
          · right; right
            simp only [h2]

/-- A run never dereferences a null material when every listed geometry has
one. -/
theorem rayColor_no_null (sqrtf : K → K) (scene : Scene K)
    (hmat : ∀ g ∈ scene.mGeometryList, g.mat ≠ none) :
    ∀ (fuel : Nat) (ray : Ray K) (t1 : K) (t2 : Fl K) (n : Int),
      rayColor sqrtf scene fuel ray t1 t2 n ≠ .error .nullMaterial := by
  intro fuel
  induction fuel with
  | zero =>
    intro ray t1 t2 n
    simp [rayColor]
  | succ k ih =>
    intro ray t1 t2 n
    by_cases hn : n = 2
    · subst hn
      rw [rayColor_cap]
      simp
    · cases hc : closestLoop sqrtf ray t1 scene.mGeometryList t2 none with
      | none =>
        rw [rayColor_miss sqrtf scene k ray t1 t2 n hn hc]
        split_ifs <;> simp
      | some hg =>
        obtain ⟨fhr, g⟩ := hg
        have hmem := closestLoop_mem sqrtf ray t1 scene.mGeometryList t2 fhr g hc
        cases hm : g.mat with
        | none => exact absurd hm (hmat g hmem)
        | some m =>
          rw [rayColor_hit sqrtf scene k ray t1 t2 n hn fhr g m hc hm]
          have := ih (reflectionRay sqrtf ray fhr) (1 / 100) Fl.pinf (n + 1)
          cases hr : rayColor sqrtf scene k (reflectionRay sqrtf ray fhr) (1 / 100) Fl.pinf
              (n + 1) with
          | error e =>
            simp only
            intro he
            rw [hr] at this
            exact this he
          | ok sub => simp

/-- C7. Depth cap and termination of `Scene::rayColor`: entered with `n = 2` it
returns `(0,0,0)` having made no `hit` call and no nested call, for every scene,
ray and interval; entered with `n = 0` it never needs more than three nested
activations: unless it dereferences a missing material, it returns, and the
activations made are at depth 0 only, at depths 0 and 1, or at depths 0, 1 and
2 (each activation makes at most one nested call, with `n + 1`). -/
theorem depth_cap_termination (sqrtf : K → K) (scene : Scene K) (fuel : Nat) (ray : Ray K)
    (t1 : K) (t2 : Fl K) :
    rayColor sqrtf scene (fuel + 1) ray t1 t2 2 = .ok ⟨Vec3.splat 0, 0, [2]⟩ ∧
    rayColor sqrtf scene (fuel + 3) ray t1 t2 0 ≠ .error .outOfFuel ∧
    (rayColor sqrtf scene (fuel + 3) ray t1 t2 0 = .error .nullMaterial ∨
      ∃ r, rayColor sqrtf scene (fuel + 3) ray t1 t2 0 = .ok r ∧
        (r.calls = [0] ∨ r.calls = [0, 1] ∨ r.calls = [0, 1, 2])) := by
  refine ⟨rayColor_cap sqrtf scene fuel ray t1 t2, ?_, ?_⟩
  · rcases rayColor_depth_zero sqrtf scene fuel ray t1 t2 with he | ⟨r, hr, _, _, _⟩
    · rw [he]; simp
    · rw [hr]; simp
  · rcases rayColor_depth_zero sqrtf scene fuel ray t1 t2 with he | ⟨r, hr, _, _, hcalls⟩
    · exact Or.inl he
    · exact Or.inr ⟨r, hr, hcalls⟩

/-- C8. Background fallback: when no listed geometry is hit within `[t1, t2]`,
`rayColor` entered with `n = 0` returns the background colour `(20,20,20)`, and
entered with any `n > 0` returns black `(0,0,0)`. -/
theorem background_fallback (sqrtf : K → K) (scene : Scene K) (fuel : Nat) (ray : Ray K)
    (t1 : K) (t2 : Fl K)
    (hmiss : ∀ g ∈ scene.mGeometryList, g.hit sqrtf ray t1 t2 = none) :
    colorOf (rayColor sqrtf scene (fuel + 1) ray t1 t2 0) = .ok (Vec3.splat 20) ∧
    ∀ n : Int, 0 < n →
      colorOf (rayColor sqrtf scene (fuel + 1) ray t1 t2 n) = .ok (Vec3.splat 0) := by
  have hc := closestLoop_none sqrtf ray t1 scene.mGeometryList t2 none hmiss
  constructor
  · rw [rayColor_miss sqrtf scene fuel ray t1 t2 0 (by norm_num) hc]
    simp [colorOf]
  · intro n hn
    by_cases h2 : n = 2
    · subst h2
      rw [rayColor_cap]
      simp [colorOf]
    · rw [rayColor_miss sqrtf scene fuel ray t1 t2 n h2 hc, if_neg (ne_of_gt hn)]
      simp [colorOf]

/-- C9 (amended). Output range of the shading entry point: in a scene whose
geometries all have a material, `rayColor` entered with `n = 0` returns, and
every component of the returned colour is NaN or lies in `[0, 255]`; it lies in
`[0, 255]` when the scene has no point lights; the colour returned at the depth
cap lies in `[0, 255]`. -/
theorem output_range (sqrtf : K → K) (scene : Scene K) (fuel : Nat) (ray : Ray K)
    (t1 : K) (t2 : Fl K)
    (hmat : ∀ g ∈ scene.mGeometryList, g.mat ≠ none) :
    (∃ r, rayColor sqrtf scene (fuel + 3) ray t1 t2 0 = .ok r ∧
      r.color.NanOrInRange 0 255 ∧
      (scene.mPointLightList = [] → r.color.InRange 0 255)) ∧
    (∃ r, rayColor sqrtf scene (fuel + 1) ray t1 t2 2 = .ok r ∧ r.color.InRange 0 255) := by
  constructor
  · rcases rayColor_depth_zero sqrtf scene fuel ray t1 t2 with he | ⟨r, hr, hrange, hfin, _⟩
    · exact absurd he (rayColor_no_null sqrtf scene hmat _ ray t1 t2 0)
    · exact ⟨r, hr, hrange, hfin⟩
  · exact ⟨_, rayColor_cap sqrtf scene fuel ray t1 t2, splat_inRange.1⟩

end Shading

/-! ## The light loop and occlusion -/

section Occlusion

variable {K : Type} [LinearOrderedField K]

/-- The shadow loop reports `inShadow` exactly when some listed geometry is hit
by the shadow ray over `[1e-4, +∞)`. -/
theorem shadowLoop_fst_iff (sqrtf : K → K) (shadowRay : Ray K) (gs : List (Geometry K)) :
    (shadowLoop sqrtf shadowRay gs).1 = true ↔
      ∃ g ∈ gs, ∃ h, g.hit sqrtf shadowRay (1 / 10000) Fl.pinf = some h := by
  induction gs with
  | nil => simp [shadowLoop]
  | cons g rest ih =>
    cases hg : g.hit sqrtf shadowRay (1 / 10000) Fl.pinf with
    | some h =>
      simp only [shadowLoop, hg]
      constructor
      · intro _
        exact ⟨g, List.mem_cons_self _ _, h, hg⟩
      · intro _
        trivial
    | none =>
      simp only [shadowLoop, hg]
      rw [ih]
      constructor
      · rintro ⟨g', hmem, h, hh⟩
        exact ⟨g', List.mem_cons_of_mem _ hmem, h, hh⟩
      · rintro ⟨g', hmem, h, hh⟩
        rcases List.mem_cons.mp hmem with rfl | hin
        · rw [hg] at hh
          cases hh
        · exact ⟨g', hin, h, hh⟩

/-- Once a light is occluded, the lights after it in the list do not change the
result of the light loop. -/
theorem lightLoop_occluded (sqrtf : K → K) (geoms : List (Geometry K)) (ray : Ray K)
    (fhr : HitResult K) (m : Material K) (L : R3 K) (rest : List (R3 K))
    (hocc : (shadowLoop sqrtf ⟨fhr.p, Vec3.sub L.toVec fhr.p⟩ geoms).1 = true) :
    ∀ (pre : List (R3 K)) (acc : Vec3 K × Nat),
      lightLoop sqrtf geoms ray fhr m (pre ++ [L] ++ rest) acc =
        lightLoop sqrtf geoms ray fhr m (pre ++ [L]) acc := by
  intro pre
  induction pre with
  | nil =>
    intro acc
    simp only [List.nil_append, List.singleton_append, lightLoop, hocc, if_true]
  | cons P pre ih =>
    intro acc
    simp only [List.cons_append, lightLoop]
    split_ifs with hP
    · rfl
    · exact ih _

/-- The activations of a run depend on the geometry only, not on the lights. -/
theorem rayColor_calls_lights (sqrtf : K → K) (geoms : List (Geometry K))
    (l1 l2 : List (R3 K)) :
    ∀ (fuel : Nat) (ray : Ray K) (t1 : K) (t2 : Fl K) (n : Int),
      callsOf (rayColor sqrtf ⟨l1, geoms⟩ fuel ray t1 t2 n) =
        callsOf (rayColor sqrtf ⟨l2, geoms⟩ fuel ray t1 t2 n) := by
  intro fuel
  induction fuel with
  | zero =>
    intro ray t1 t2 n
    simp [rayColor, callsOf]
  | succ k ih =>
    intro ray t1 t2 n
    by_cases hn : n = 2
    · subst hn
      simp only [rayColor_cap]
    · cases hc : closestLoop sqrtf ray t1 geoms t2 none with
      | none =>
        rw [rayColor_miss sqrtf ⟨l1, geoms⟩ k ray t1 t2 n hn hc,
          rayColor_miss sqrtf ⟨l2, geoms⟩ k ray t1 t2 n hn hc]
      | some hg =>
        obtain ⟨fhr, g⟩ := hg
        cases hm : g.mat with
        | none =>
          rw [rayColor_hit_null sqrtf ⟨l1, geoms⟩ k ray t1 t2 n hn fhr g hc hm,
            rayColor_hit_null sqrtf ⟨l2, geoms⟩ k ray t1 t2 n hn fhr g hc hm]
        | some m =>
          rw [rayColor_hit sqrtf ⟨l1, geoms⟩ k ray t1 t2 n hn fhr g m hc hm,
            rayColor_hit sqrtf ⟨l2, geoms⟩ k ray t1 t2 n hn fhr g m hc hm]
          have h := ih (reflectionRay sqrtf ray fhr) (1 / 100) Fl.pinf (n + 1)
          cases h1 : rayColor sqrtf ⟨l1, geoms⟩ k (reflectionRay sqrtf ray fhr) (1 / 100)
              Fl.pinf (n + 1) with
          | error e1 =>
            cases h2 : rayColor sqrtf ⟨l2, geoms⟩ k (reflectionRay sqrtf ray fhr) (1 / 100)
                Fl.pinf (n + 1) with
            | error e2 =>
              rw [h1, h2] at h
              simpa [callsOf] using h
            | ok r2 =>
              rw [h1, h2] at h
              simp [callsOf] at h
          | ok r1 =>
            cases h2 : rayColor sqrtf ⟨l2, geoms⟩ k (reflectionRay sqrtf ray fhr) (1 / 100)
                Fl.pinf (n + 1) with
            | error e2 =>
              rw [h1, h2] at h
              simp [callsOf] at h
            | ok r2 =>
              rw [h1, h2] at h
              simp only [callsOf, Except.ok.injEq] at h
              simp only [callsOf, h]

/-- Where the half-vector product with the normal is finite and non-negative,
the light term of the code is the light term of the specification. -/
theorem lightTerm_eq_spec (sqrtf : K → K) (ray : Ray K) (fhr : HitResult K) (m : Material K)
    (L : R3 K) (c : K) (hc : 0 ≤ c)
    (hdot : Vec3.dot fhr.n (Vec3.normalize sqrtf
      (Vec3.add (Vec3.normalize sqrtf (Vec3.sub L.toVec fhr.p))
        (Vec3.normalize sqrtf (Vec3.sub ray.o fhr.p)))) = Fl.fin c) :
    lightTerm sqrtf ray fhr m L = lightTermSpec sqrtf ray fhr m L := by
  unfold lightTerm lightTermSpec
  simp only [hdot, Fl.max, fl_lt_fin]
  rcases lt_or_eq_of_le hc with h | h
  · simp [h]
  · simp [← h]

/-- Scaling a finite colour by a zero mirror coefficient gives black. -/
theorem Vec3.smul_zero_finite (v : Vec3 K) (hv : v.Finite) :
    Vec3.smul (Fl.fin 0) v = Vec3.splat 0 := by
  obtain ⟨a, rfl⟩ := hv
  simp [Vec3.smul, R3.toVec, Vec3.splat]

/-- C3 (amended). Occlusion short-circuit in `Scene::rayColor`: when the ray hits a
geometry with a material and the light list is `pre ++ [L] ++ rest` with the
shadow ray from the hit point toward `L` hitting some geometry over
`[1e-4, +∞)`, the light loop at that hit point gives the same result as for the
list `pre ++ [L]`; the returned colour equals the colour for the light list
`pre ++ [L]` whenever the call is at depth `n = 1`, or the reflected ray returns
the same colour for both light lists, or the mirror coefficient of the hit
material is `0` and the colour the reflected ray returns is finite for both
light lists. -/
theorem occlusion_short_circuit (sqrtf : K → K) (geoms : List (Geometry K))
    (pre rest : List (R3 K)) (L : R3 K) (ray : Ray K) (t1 : K) (t2 : Fl K)
    (n : Int) (k : Nat) (fhr : HitResult K) (g : Geometry K) (m : Material K)
    (hhit : closestLoop sqrtf ray t1 geoms t2 none = some (fhr, g))
    (hm : g.mat = some m)
    (hocc : ∃ g' ∈ geoms, ∃ h,
      g'.hit sqrtf ⟨fhr.p, Vec3.sub L.toVec fhr.p⟩ (1 / 10000) Fl.pinf = some h) :
    (∀ acc, lightLoop sqrtf geoms ray fhr m (pre ++ [L] ++ rest) acc =
      lightLoop sqrtf geoms ray fhr m (pre ++ [L]) acc) ∧
    (n = 1 ∨
      colorOf (rayColor sqrtf ⟨pre ++ [L] ++ rest, geoms⟩ k (reflectionRay sqrtf ray fhr)
          (1 / 100) Fl.pinf (n + 1)) =
        colorOf (rayColor sqrtf ⟨pre ++ [L], geoms⟩ k (reflectionRay sqrtf ray fhr)
          (1 / 100) Fl.pinf (n + 1)) ∨
      (m.mKm = 0 ∧
        (∀ r, rayColor sqrtf ⟨pre ++ [L] ++ rest, geoms⟩ k (reflectionRay sqrtf ray fhr)
          (1 / 100) Fl.pinf (n + 1) = .ok r → r.color.Finite) ∧
        (∀ r, rayColor sqrtf ⟨pre ++ [L], geoms⟩ k (reflectionRay sqrtf ray fhr)
          (1 / 100) Fl.pinf (n + 1) = .ok r → r.color.Finite)) →
      colorOf (rayColor sqrtf ⟨pre ++ [L] ++ rest, geoms⟩ (k + 1) ray t1 t2 n) =
        colorOf (rayColor sqrtf ⟨pre ++ [L], geoms⟩ (k + 1) ray t1 t2 n)) := by
  have hsh := (shadowLoop_fst_iff sqrtf ⟨fhr.p, Vec3.sub L.toVec fhr.p⟩ geoms).mpr hocc
  have hloop := lightLoop_occluded sqrtf geoms ray fhr m L rest hsh pre
  refine ⟨hloop, ?_⟩
  intro hcase
  by_cases hn : n = 2
  · subst hn
    rw [rayColor_cap, rayColor_cap]
  · rw [rayColor_hit sqrtf ⟨pre ++ [L] ++ rest, geoms⟩ k ray t1 t2 n hn fhr g m hhit hm,
      rayColor_hit sqrtf ⟨pre ++ [L], geoms⟩ k ray t1 t2 n hn fhr g m hhit hm]
    simp only [hloop]
    have hcalls := rayColor_calls_lights sqrtf geoms (pre ++ [L] ++ rest) (pre ++ [L]) k
      (reflectionRay sqrtf ray fhr) (1 / 100) Fl.pinf (n + 1)
    have hcol : n = 1 → colorOf (rayColor sqrtf ⟨pre ++ [L] ++ rest, geoms⟩ k
        (reflectionRay sqrtf ray fhr) (1 / 100) Fl.pinf (n + 1)) =
        colorOf (rayColor sqrtf ⟨pre ++ [L], geoms⟩ k (reflectionRay sqrtf ray fhr)
          (1 / 100) Fl.pinf (n + 1)) := by
      intro hn1
      subst hn1
      cases k with
      | zero => simp [rayColor]
      | succ j => rw [show (1 : Int) + 1 = 2 by norm_num, rayColor_cap, rayColor_cap]
    cases h1 : rayColor sqrtf ⟨pre ++ [L] ++ rest, geoms⟩ k (reflectionRay sqrtf ray fhr)
        (1 / 100) Fl.pinf (n + 1) with
    | error e1 =>
      cases h2 : rayColor sqrtf ⟨pre ++ [L], geoms⟩ k (reflectionRay sqrtf ray fhr)
          (1 / 100) Fl.pinf (n + 1) with
      | error e2 =>
        rw [h1, h2] at hcalls
        simpa [callsOf, colorOf] using hcalls
      | ok r2 =>
        rw [h1, h2] at hcalls
        simp [callsOf] at hcalls
    | ok r1 =>
      cases h2 : rayColor sqrtf ⟨pre ++ [L], geoms⟩ k (reflectionRay sqrtf ray fhr)
          (1 / 100) Fl.pinf (n + 1) with
      | error e2 =>
        rw [h1, h2] at hcalls
        simp [callsOf] at hcalls
      | ok r2 =>
        simp only [colorOf]
        have heq : colorOf (rayColor sqrtf ⟨pre ++ [L] ++ rest, geoms⟩ k
            (reflectionRay sqrtf ray fhr) (1 / 100) Fl.pinf (n + 1)) =
            colorOf (rayColor sqrtf ⟨pre ++ [L], geoms⟩ k (reflectionRay sqrtf ray fhr)
              (1 / 100) Fl.pinf (n + 1)) → r1.color = r2.color := by
          intro he
          rw [h1, h2] at he
          simpa [colorOf] using he
        rcases hcase with hn1 | hsame | ⟨hkm, hf1, hf2⟩
        · rw [heq (hcol hn1)]
        · rw [heq hsame]
        · rw [hkm, Vec3.smul_zero_finite r1.color (hf1 r1 h1),
            Vec3.smul_zero_finite r2.color (hf2 r2 h2)]

end Occlusion

/-! ## Two mirrors and the depth cap -/

section Mirrors

variable {K : Type} [LinearOrderedField K]

/-- A float times zero is zero or NaN. -/
theorem zn_mul_zero (x : Fl K) : (x * Fl.fin 0).ZeroOrNan := by
  cases x with
  | fin a =>
    left
    simp
  | pinf =>
    right
    show Fl.mul Fl.pinf (Fl.fin 0) = _
    simp [Fl.mul]
  | ninf =>
    right
    show Fl.mul Fl.ninf (Fl.fin 0) = _
    simp [Fl.mul]
  | nan =>
    right
    rfl

/-- The sum of two floats that are zero or NaN is zero or NaN. -/
theorem zn_add (x y : Fl K) (hx : x.ZeroOrNan) (hy : y.ZeroOrNan) : (x + y).ZeroOrNan := by
  rcases hx with rfl | rfl <;> rcases hy with rfl | rfl
  · left; simp
  · right; simp
  · right; simp
  · right; simp

/-- A finite multiple of a float that is zero or NaN is zero or NaN. -/
theorem zn_fin_mul (c : K) (x : Fl K) (hx : x.ZeroOrNan) : (Fl.fin c * x).ZeroOrNan := by
  rcases hx with rfl | rfl
  · left; simp
  · right; simp

/-- The clamp to `[0, 255]` of a float that is zero or NaN is the float itself. -/
theorem zn_clamp (x : Fl K) (hx : x.ZeroOrNan) :
    Fl.min (Fl.max x (Fl.fin 0)) (Fl.fin 255) = x := by
  rcases hx with rfl | rfl
  · simp [Fl.min, Fl.max]
  · simp [Fl.min, Fl.max]

/-- With zero diffuse and zero specular coefficients the amount a light adds is
zero or NaN in every component. -/
theorem lightTerm_zn (sqrtf : K → K) (ray : Ray K) (fhr : HitResult K) (m : Material K)
    (L : R3 K) (hkd : m.mKd = ⟨0, 0, 0⟩) (hks : m.mKs = ⟨0, 0, 0⟩) :
    (lightTerm sqrtf ray fhr m L).ZeroOrNan := by
  simp only [lightTerm, hkd, hks, Vec3.add, Vec3.smul, R3.toVec, Vec3.ZeroOrNan]
  exact ⟨zn_add _ _ (zn_mul_zero _) (zn_mul_zero _), zn_add _ _ (zn_mul_zero _) (zn_mul_zero _),
    zn_add _ _ (zn_mul_zero _) (zn_mul_zero _)⟩

/-- With zero diffuse and zero specular coefficients the light loop keeps a
colour whose components are zero or NaN that way. -/
theorem lightLoop_zn (sqrtf : K → K) (geoms : List (Geometry K)) (ray : Ray K)
    (fhr : HitResult K) (m : Material K) (hkd : m.mKd = ⟨0, 0, 0⟩) (hks : m.mKs = ⟨0, 0, 0⟩) :
    ∀ (lights : List (R3 K)) (acc : Vec3 K × Nat), acc.1.ZeroOrNan →
      (lightLoop sqrtf geoms ray fhr m lights acc).1.ZeroOrNan := by
  intro lights
  induction lights with
  | nil =>
    intro acc hacc
    exact hacc
  | cons L rest ih =>
    intro acc hacc
    simp only [lightLoop]
    split_ifs with hs
    · exact hacc
    · apply ih
      have ht := lightTerm_zn sqrtf ray fhr m L hkd hks
      exact ⟨zn_add _ _ hacc.1 ht.1, zn_add _ _ hacc.2.1 ht.2.1, zn_add _ _ hacc.2.2 ht.2.2⟩

/-- The colour of a hit on a material of zero diffuse and specular coefficients
whose reflected ray returned zero-or-NaN components has zero-or-NaN components;
without lights and with a black reflected colour it is black. -/
theorem black_hit_color (sqrtf : K → K) (geoms : List (Geometry K)) (lights : List (R3 K))
    (ray : Ray K) (fhr : HitResult K) (m : Material K) (c : Vec3 K)
    (hkd : m.mKd = ⟨0, 0, 0⟩) (hks : m.mKs = ⟨0, 0, 0⟩) (hc : c.ZeroOrNan) :
    (Vec3.clamp (Vec3.add
      (lightLoop sqrtf geoms ray fhr m lights (Vec3.smul (Fl.fin (2 / 5)) m.mKd.toVec, 0)).1
      (Vec3.smul (Fl.fin m.mKm) c)) 0 255).ZeroOrNan ∧
    (lights = [] → c = Vec3.splat 0 →
      Vec3.clamp (Vec3.add
        (lightLoop sqrtf geoms ray fhr m lights (Vec3.smul (Fl.fin (2 / 5)) m.mKd.toVec, 0)).1
        (Vec3.smul (Fl.fin m.mKm) c)) 0 255 = Vec3.splat 0) := by
  have h0 : (Vec3.smul (Fl.fin (2 / 5)) m.mKd.toVec : Vec3 K).ZeroOrNan := by
    simp [hkd, Vec3.smul, R3.toVec, Vec3.ZeroOrNan, Fl.ZeroOrNan]
  have hl := lightLoop_zn sqrtf geoms ray fhr m hkd hks lights
    (Vec3.smul (Fl.fin (2 / 5)) m.mKd.toVec, 0) h0
  constructor
  · have hsum : (Vec3.add
        (lightLoop sqrtf geoms ray fhr m lights
          (Vec3.smul (Fl.fin (2 / 5)) m.mKd.toVec, 0)).1
        (Vec3.smul (Fl.fin m.mKm) c)).ZeroOrNan :=
      ⟨zn_add _ _ hl.1 (zn_fin_mul _ _ hc.1), zn_add _ _ hl.2.1 (zn_fin_mul _ _ hc.2.1),
        zn_add _ _ hl.2.2 (zn_fin_mul _ _ hc.2.2)⟩
    simp only [Vec3.clamp, Vec3.ZeroOrNan]
    rw [zn_clamp _ hsum.1, zn_clamp _ hsum.2.1, zn_clamp _ hsum.2.2]
    exact hsum
  · intro hnil hblack
    subst hnil
    subst hblack
    simp [lightLoop, hkd, Vec3.clamp, Vec3.add, Vec3.smul, Vec3.splat, R3.toVec, Fl.min, Fl.max]

/-- C6 (amended). Depth cap between two mirrors: in a scene of two planes (in
particular two parallel planes facing each other), each with zero specular and
zero diffuse coefficients and any mirror coefficient (in particular `1`),
`rayColor` entered with `n = 0` on a ray that hits a plane and whose reflection
hits a plane again returns after activations at depths 0, 1 and 2, the last of
which is cut by the cap; when the scene has no point lights the returned colour
is exactly black, and with point lights every component of it is zero or
NaN. -/
theorem depth_cap_black_mirrors (sqrtf : K → K) (lights : List (R3 K)) (p1 p2 : Plain K)
    (m1 m2 : Material K) (ray : Ray K) (t1 : K) (t2 : Fl K) (fuel : Nat)
    (h1 h2 : HitResult K) (g1 g2 : Geometry K)
    (hkd1 : m1.mKd = ⟨0, 0, 0⟩) (hkd2 : m2.mKd = ⟨0, 0, 0⟩)
    (hks1 : m1.mKs = ⟨0, 0, 0⟩) (hks2 : m2.mKs = ⟨0, 0, 0⟩)
    (hb1 : closestLoop sqrtf ray t1 [.plain p1 (some m1), .plain p2 (some m2)] t2 none =
      some (h1, g1))
    (hb2 : closestLoop sqrtf (reflectionRay sqrtf ray h1) (1 / 100)
      [.plain p1 (some m1), .plain p2 (some m2)] Fl.pinf none = some (h2, g2)) :
    ∃ r, rayColor sqrtf ⟨lights, [.plain p1 (some m1), .plain p2 (some m2)]⟩ (fuel + 3)
        ray t1 t2 0 = .ok r ∧ r.calls = [0, 1, 2] ∧ r.color.ZeroOrNan ∧
      (lights = [] → r.color = Vec3.splat 0) := by
  have hmat : ∀ g ∈ [Geometry.plain p1 (some m1), Geometry.plain p2 (some m2)],
      ∃ m, g.mat = some m ∧ m.mKd = ⟨0, 0, 0⟩ ∧ m.mKs = ⟨0, 0, 0⟩ := by
    intro g hg
    rcases List.mem_cons.mp hg with rfl | hg'
    · exact ⟨m1, rfl, hkd1, hks1⟩
    · rcases List.mem_cons.mp hg' with rfl | hg''
      · exact ⟨m2, rfl, hkd2, hks2⟩
      · cases hg''
  obtain ⟨ma, hma, hkda, hksa⟩ := hmat g1 (closestLoop_mem sqrtf ray t1 _ t2 h1 g1 hb1)
  obtain ⟨mb, hmb, hkdb, hksb⟩ := hmat g2 (closestLoop_mem sqrtf _ (1 / 100) _ Fl.pinf h2 g2 hb2)
  rw [rayColor_hit sqrtf _ (fuel + 2) ray t1 t2 0 (by norm_num) h1 g1 ma hb1 hma]
  rw [rayColor_hit sqrtf _ (fuel + 1) (reflectionRay sqrtf ray h1) (1 / 100) Fl.pinf (0 + 1)
    (by norm_num) h2 g2 mb hb2 hmb]
  rw [show (0 : Int) + 1 + 1 = 2 by norm_num, rayColor_cap]
  have hz : (Vec3.splat (0 : K)).ZeroOrNan := ⟨Or.inl rfl, Or.inl rfl, Or.inl rfl⟩
  have hin := black_hit_color sqrtf [.plain p1 (some m1), .plain p2 (some m2)] lights
    (reflectionRay sqrtf ray h1) h2 mb (Vec3.splat 0) hkdb hksb hz
  refine ⟨_, rfl, by norm_num, ?_, ?_⟩
  · exact (black_hit_color sqrtf _ lights ray h1 ma _ hkda hksa hin.1).1
  · intro hl
    exact (black_hit_color sqrtf _ lights ray h1 ma _ hkda hksa hin.1).2 hl (hin.2 hl rfl)

end Mirrors

/-! ## Correctness of the two intersection tests -/

section GeometryCorrect

variable {K : Type} [LinearOrderedField K]

/-- The squared distance of the point at parameter `t` from the centre, through
the quadratic. -/
theorem sphere_point_dist (s : Sphere K) (o d : R3 K) (t : K) :
    R3.dot (R3.sub (R3.add o (R3.smul t d)) s.mC) (R3.sub (R3.add o (R3.smul t d)) s.mC) =
      s.mR * s.mR + (quadA d * t ^ 2 + 2 * quadB s o d * t + quadC s o) := by
  simp only [R3.dot, R3.sub, R3.add, R3.smul, quadA, quadB, quadC]
  ring

/-- Division of a finite vector by a non-zero finite scalar. -/
theorem vec_sdiv_toVec (v : R3 K) (r : K) (hr : r ≠ 0) :
    Vec3.sdiv v.toVec (Fl.fin r) = (R3.sdiv v r).toVec := by
  simp [Vec3.sdiv, R3.toVec, R3.sdiv, hr]

/-- C4. Correctness of `Sphere::hit` for a sphere of radius `r > 0` and a finite
ray of non-zero direction, the square root being exact at the discriminant when
that is non-negative: whenever `hit` returns true, the reported `t` is
`(-b - sqrt(b² - a c'))/a`, it is a root of `a t² + 2 b t + c' = 0` and no root
is smaller (the far root is never reported), the reported point is `o + t d`
and lies on the sphere, and the reported normal is `(p - c)/r` and has unit
length.  Instance: the sphere of radius `r` about the origin and the ray from
`(0,0,5r)` with direction `(0,0,-1)` over `[0, +∞)` give `t = 4r`, point
`(0,0,r)`, normal `(0,0,1)`. -/
theorem sphere_hit_correct (sqrtf : K → K) :
    (∀ (s : Sphere K) (o d : R3 K) (t1 : K) (t2 : Fl K) (hr : HitResult K),
      0 < s.mR → d ≠ ⟨0, 0, 0⟩ →
      (0 ≤ quadB s o d * quadB s o d - quadA d * quadC s o →
        IsSqrtAt sqrtf (quadB s o d * quadB s o d - quadA d * quadC s o)) →
      s.hit sqrtf (Ray.ofR3 o d) t1 t2 = some hr →
        ∃ (t : K) (p n : R3 K),
          hr.t = Fl.fin t ∧ hr.p = p.toVec ∧ hr.n = n.toVec ∧
          t = (-quadB s o d - sqrtf (quadB s o d * quadB s o d - quadA d * quadC s o)) /
            quadA d ∧
          quadA d * t ^ 2 + 2 * quadB s o d * t + quadC s o = 0 ∧
          (∀ u : K, quadA d * u ^ 2 + 2 * quadB s o d * u + quadC s o = 0 → t ≤ u) ∧
          p = R3.add o (R3.smul t d) ∧
          R3.dot (R3.sub p s.mC) (R3.sub p s.mC) = s.mR * s.mR ∧
          n = R3.sdiv (R3.sub p s.mC) s.mR ∧
          R3.dot n n = 1) ∧
    (∀ r : K, 0 < r → IsSqrtAt sqrtf (r * r) →
      Sphere.hit sqrtf ⟨⟨0, 0, 0⟩, r⟩ (Ray.ofR3 ⟨0, 0, 5 * r⟩ ⟨0, 0, -1⟩) 0 Fl.pinf =
        some ⟨(⟨0, 0, r⟩ : R3 K).toVec, (⟨0, 0, 1⟩ : R3 K).toVec, Fl.fin (4 * r)⟩) := by
  constructor
  · intro s o d t1 t2 hr hpos hd hsq hh
    have ha := quadA_pos d hd
    have ha' : quadA d ≠ 0 := ne_of_gt ha
    have hb := sphere_hit_bounds sqrtf s o d t1 t2 ha' hr hh
    obtain ⟨hs0, hs2⟩ := hsq hb.1
    rw [sphere_hit_ofR3 sqrtf s o d t1 t2 ha'] at hh
    split_ifs at hh with c1 c2
    simp only [Option.some.injEq] at hh
    have hr0 : s.mR ≠ 0 := ne_of_gt hpos
    rw [vec_sdiv_toVec _ _ hr0] at hh
    subst hh
    set a := quadA d with haDef
    set b := quadB s o d with hbDef
    set c := quadC s o with hcDef
    set q := sqrtf (b * b - a * c) with hqDef
    have htq : nearRoot sqrtf s o d = (-b - q) / a := rfl
    have hat : a * ((-b - q) / a) = -b - q := by field_simp
    have hroot : a * ((-b - q) / a) ^ 2 + 2 * b * ((-b - q) / a) + c = 0 := by
      have h1 : a * (a * ((-b - q) / a) ^ 2 + 2 * b * ((-b - q) / a) + c) = 0 := by
        have : a * (a * ((-b - q) / a) ^ 2 + 2 * b * ((-b - q) / a) + c) =
            (a * ((-b - q) / a)) ^ 2 + 2 * b * (a * ((-b - q) / a)) + a * c := by ring
        rw [this, hat]
        nlinarith [hs2]
      rcases mul_eq_zero.mp h1 with h | h
      · exact absurd h ha'
      · exact h
    have hdist := sphere_point_dist s o d ((-b - q) / a)
    rw [← haDef, ← hbDef, ← hcDef, hroot, add_zero] at hdist
    refine ⟨(-b - q) / a, R3.add o (R3.smul ((-b - q) / a) d),
      R3.sdiv (R3.sub (R3.add o (R3.smul ((-b - q) / a) d)) s.mC) s.mR,
      by rw [htq], by rw [htq], by rw [htq], rfl, hroot, ?_, rfl, hdist, rfl, ?_⟩
    · intro u hu
      have h2 : (a * u + b) ^ 2 = q * q := by
        rw [hs2]
        linear_combination a * hu
      have h3 : -q ≤ a * u + b := by
        by_contra hlt
        push_neg at hlt
        nlinarith [hs0]
      have h4 : a * ((-b - q) / a) ≤ a * u := by
        rw [hat]
        linarith
      exact le_of_mul_le_mul_left h4 ha
    · have hn : ∀ v : R3 K, R3.dot (R3.sdiv v s.mR) (R3.sdiv v s.mR) =
          R3.dot v v / (s.mR * s.mR) := by
        intro v
        simp only [R3.dot, R3.sdiv]
        field_simp
      rw [hn, hdist]
      field_simp
  · intro r hr hsq
    obtain ⟨hs0, hs2⟩ := hsq
    have hq : sqrtf (r * r) = r := by
      have h1 : (sqrtf (r * r) - r) * (sqrtf (r * r) + r) = 0 := by
        linear_combination hs2
      rcases mul_eq_zero.mp h1 with h | h
      · linarith
      · linarith
    have hA : quadA (⟨0, 0, -1⟩ : R3 K) = 1 := by
      simp [quadA, R3.dot]
    have hD : quadD (⟨⟨0, 0, 0⟩, r⟩ : Sphere K) ⟨0, 0, 5 * r⟩ ⟨0, 0, -1⟩ = r * r := by
      simp only [quadD, quadA, quadB, quadC, R3.dot, R3.sub]
      ring
    have ht : nearRoot sqrtf (⟨⟨0, 0, 0⟩, r⟩ : Sphere K) ⟨0, 0, 5 * r⟩ ⟨0, 0, -1⟩ = 4 * r := by
      unfold nearRoot
      rw [hD, hq, hA]
      simp only [quadB, R3.dot, R3.sub]
      ring
    have hr0 : r ≠ 0 := ne_of_gt hr
    rw [sphere_hit_ofR3 sqrtf _ _ _ _ _ (by rw [hA]; exact one_ne_zero), hD, ht]
    have hnn : ¬ (r * r < 0) := not_lt.mpr (mul_self_nonneg r)
    have h4 : ¬ (4 * r < 0 ∨ Fl.lt (Fl.pinf : Fl K) (Fl.fin (4 * r)) = true) := by
      push_neg
      exact ⟨by linarith, by simp⟩
    rw [if_neg hnn, if_neg h4, vec_sdiv_toVec _ _ hr0]
    simp only [R3.add, R3.smul, R3.sub, R3.sdiv, R3.toVec, Option.some.injEq,
      HitResult.mk.injEq, Vec3.mk.injEq, Fl.fin.injEq]
    refine ⟨⟨by ring, by ring, by ring⟩, ⟨by simp, by simp, ?_⟩, trivial⟩
    field_simp
    ring

/-- C5. Correctness of `Plain::hit` on finite rays: when `|d·n| ≥ FLT_EPSILON` and
`hit` returns true, the reported `t` equals `(n·a - n·o)/(d·n)`, the reported
point is `o + t d` and lies on the plane (`n·(p - a) = 0`), and the reported
normal is the stored `n`; when `|d·n| < FLT_EPSILON`, `hit` returns false.
Instance: the plane with normal `(0,1,0)` through `(0,0,0)` and the ray from
`(0,10,0)` with direction `(0,-1,0)` over `[0, +∞)` give `t = 10`, point
`(0,0,0)`, normal `(0,1,0)`. -/
theorem plain_hit_correct :
    (∀ (pl : Plain K) (o d : R3 K) (t1 : K) (t2 : Fl K) (hr : HitResult K),
      FLT_EPSILON ≤ |R3.dot d pl.mN| → pl.hit (Ray.ofR3 o d) t1 t2 = some hr →
        ∃ (t : K) (p : R3 K),
          hr.t = Fl.fin t ∧ hr.p = p.toVec ∧
          t = (R3.dot pl.mN pl.mA - R3.dot pl.mN o) / R3.dot d pl.mN ∧
          p = R3.add o (R3.smul t d) ∧
          R3.dot pl.mN (R3.sub p pl.mA) = 0 ∧
          hr.n = pl.mN.toVec) ∧
    (∀ (pl : Plain K) (o d : R3 K) (t1 : K) (t2 : Fl K),
      |R3.dot d pl.mN| < FLT_EPSILON → pl.hit (Ray.ofR3 o d) t1 t2 = none) ∧
    Plain.hit (⟨⟨0, 1, 0⟩, ⟨0, 0, 0⟩⟩ : Plain K) (Ray.ofR3 ⟨0, 10, 0⟩ ⟨0, -1, 0⟩) 0 Fl.pinf =
      some ⟨(⟨0, 0, 0⟩ : R3 K).toVec, (⟨0, 1, 0⟩ : R3 K).toVec, Fl.fin 10⟩ := by
  have heps : (0 : K) < FLT_EPSILON := by
    unfold FLT_EPSILON
    positivity
  refine ⟨?_, ?_, ?_⟩
  · intro pl o d t1 t2 hr hge hh
    have hne : R3.dot d pl.mN ≠ 0 := by
      intro h0
      rw [h0, abs_zero] at hge
      exact absurd heps (not_lt.mpr hge)
    rw [plain_hit_ofR3 pl o d t1 t2] at hh
    split_ifs at hh with c1 c2
    simp only [Option.some.injEq] at hh
    subst hh
    refine ⟨planeParam pl o d, R3.add o (R3.smul (planeParam pl o d) d), rfl, rfl, ?_, rfl, ?_,
      rfl⟩
    · simp only [planeParam, R3.dot]
      ring
    · simp only [planeParam, R3.dot, R3.sub, R3.add, R3.smul] at hne ⊢
      field_simp
      ring
  · intro pl o d t1 t2 hlt
    rw [plain_hit_ofR3 pl o d t1 t2, if_pos hlt]
  · have h1 : ¬ ((1 : K) < FLT_EPSILON) := by
      unfold FLT_EPSILON
      rw [not_lt, div_le_one (by positivity)]
      exact one_le_pow₀ (by norm_num)
    rw [plain_hit_ofR3]
    simp only [planeParam, R3.dot, R3.add, R3.smul, R3.toVec]
    norm_num [h1]

end GeometryCorrect

/-! ## Evaluation on concrete inputs -/

section Concrete

/-- On the square of a non-negative rational `Rat.sqrt` is exact. -/
theorem rsqrt_sq (q : ℚ) (h : 0 ≤ q) : Rat.sqrt (q * q) = q := by
  rw [Rat.sqrt_eq, abs_of_nonneg h]

theorem rsqrt_0 : Rat.sqrt 0 = 0 := by
  have h := rsqrt_sq 0 (le_refl _)
  rwa [mul_zero] at h

theorem rsqrt_1 : Rat.sqrt 1 = 1 := by
  have h := rsqrt_sq 1 (by norm_num)
  rwa [mul_one] at h

theorem rsqrt_4 : Rat.sqrt 4 = 2 := by
  rw [show (4 : ℚ) = 2 * 2 by norm_num]
  exact rsqrt_sq 2 (by norm_num)

theorem rsqrt_9 : Rat.sqrt 9 = 3 := by
  rw [show (9 : ℚ) = 3 * 3 by norm_num]
  exact rsqrt_sq 3 (by norm_num)

theorem rsqrt_25 : Rat.sqrt 25 = 5 := by
  rw [show (25 : ℚ) = 5 * 5 by norm_num]
  exact rsqrt_sq 5 (by norm_num)

theorem rsqrt_100 : Rat.sqrt 100 = 10 := by
  rw [show (100 : ℚ) = 10 * 10 by norm_num]
  exact rsqrt_sq 10 (by norm_num)

theorem rsqrt_625_4 : Rat.sqrt (625 / 4) = 25 / 2 := by
  rw [show (625 / 4 : ℚ) = (25 / 2) * (25 / 2) by norm_num]
  exact rsqrt_sq _ (by norm_num)

theorem rsqrt_64_25 : Rat.sqrt (64 / 25) = 8 / 5 := by
  rw [show (64 / 25 : ℚ) = (8 / 5) * (8 / 5) by norm_num]
  exact rsqrt_sq _ (by norm_num)

/-! ### Floor and wall: a light hidden at the first hit, visible at the second -/

theorem occ_closest1 (m : Material ℚ) :
    closestLoop Rat.sqrt occRay 0 [occFloor m, occWall] Fl.pinf none =
      some (occHit1, occFloor m) := by
  norm_num [closestLoop, Geometry.hit, Plain.hit, Vec3.dot, Vec3.add, Vec3.smul, R3.toVec,
    Ray.ofR3, HitResult.ofR3, FLT_EPSILON, abs_lt, Fl.lt, occRay, occFloor, occWall, occHit1]

theorem occ_wall_hides_A :
    occWall.hit Rat.sqrt ⟨occHit1.p, Vec3.sub occLightA.toVec occHit1.p⟩ (1 / 10000) Fl.pinf =
      some (HitResult.ofR3 ⟨10, 35 / 2, 0⟩ ⟨-1, 0, 0⟩ (5 / 3)) := by
  norm_num [Geometry.hit, Plain.hit, Vec3.dot, Vec3.add, Vec3.sub, Vec3.smul, R3.toVec,
    HitResult.ofR3, FLT_EPSILON, abs_lt, Fl.lt, occWall, occHit1, occLightA]

theorem occ_shadowA1 (m : Material ℚ) :
    shadowLoop Rat.sqrt ⟨occHit1.p, Vec3.sub occLightA.toVec occHit1.p⟩ [occFloor m, occWall] =
      (true, 2) := by
  norm_num [shadowLoop, Geometry.hit, Plain.hit, Vec3.dot, Vec3.add, Vec3.sub, Vec3.smul,
    R3.toVec, HitResult.ofR3, FLT_EPSILON, abs_lt, Fl.lt, occFloor, occWall, occHit1, occLightA]

theorem occ_shadowB1 (m : Material ℚ) :
    shadowLoop Rat.sqrt ⟨occHit1.p, Vec3.sub occLightB.toVec occHit1.p⟩ [occFloor m, occWall] =
      (false, 2) := by
  norm_num [shadowLoop, Geometry.hit, Plain.hit, Vec3.dot, Vec3.add, Vec3.sub, Vec3.smul,
    R3.toVec, HitResult.ofR3, FLT_EPSILON, abs_lt, Fl.lt, occFloor, occWall, occHit1, occLightB]

theorem occ_reflect1 : reflectionRay Rat.sqrt occRay occHit1 = occRay2 := by
  norm_num [reflectionRay, Vec3.normalize, Vec3.dot, Vec3.sub, Vec3.smul, R3.toVec, Ray.ofR3,
    HitResult.ofR3, occRay, occHit1, occRay2, rsqrt_25]

theorem occ_closest2 (m : Material ℚ) :
    closestLoop Rat.sqrt occRay2 (1 / 100) [occFloor m, occWall] Fl.pinf none =
      some (occHit2, occWall) := by
  norm_num [closestLoop, Geometry.hit, Plain.hit, Vec3.dot, Vec3.add, Vec3.smul, R3.toVec,
    Ray.ofR3, HitResult.ofR3, FLT_EPSILON, abs_lt, Fl.lt, occRay2, occFloor, occWall, occHit2]

theorem occ_shadowA2 (m : Material ℚ) :
    shadowLoop Rat.sqrt ⟨occHit2.p, Vec3.sub occLightA.toVec occHit2.p⟩ [occFloor m, occWall] =
      (false, 2) := by
  norm_num [shadowLoop, Geometry.hit, Plain.hit, Vec3.dot, Vec3.add, Vec3.sub, Vec3.smul,
    R3.toVec, HitResult.ofR3, FLT_EPSILON, abs_lt, Fl.lt, occFloor, occWall, occHit2, occLightA]

theorem occ_shadowB2 (m : Material ℚ) :
    shadowLoop Rat.sqrt ⟨occHit2.p, Vec3.sub occLightB.toVec occHit2.p⟩ [occFloor m, occWall] =
      (false, 2) := by
  norm_num [shadowLoop, Geometry.hit, Plain.hit, Vec3.dot, Vec3.add, Vec3.sub, Vec3.smul,
    R3.toVec, HitResult.ofR3, FLT_EPSILON, abs_lt, Fl.lt, occFloor, occWall, occHit2, occLightB]

theorem occ_termA2 :
    lightTerm Rat.sqrt occRay2 occHit2 matteGrey occLightA = Vec3.splat 80 := by
  norm_num [lightTerm, Vec3.normalize, Vec3.dot, Vec3.add, Vec3.sub, Vec3.smul, Vec3.splat,
    R3.toVec, Ray.ofR3, HitResult.ofR3, Fl.max, Fl.lt, occRay2, occHit2, matteGrey, occLightA,
    rsqrt_25, rsqrt_625_4, rsqrt_64_25]

theorem occ_termB2 :
    lightTerm Rat.sqrt occRay2 occHit2 matteGrey occLightB = Vec3.splat 80 := by
  norm_num [lightTerm, Vec3.normalize, Vec3.dot, Vec3.add, Vec3.sub, Vec3.smul, Vec3.splat,
    R3.toVec, Ray.ofR3, HitResult.ofR3, Fl.max, Fl.lt, occRay2, occHit2, matteGrey, occLightB,
    rsqrt_25, rsqrt_625_4, rsqrt_64_25]

/-- The run on the reflected ray with both lights: `(200,200,200)`. -/
theorem occ_inner_full (m : Material ℚ) :
    rayColor Rat.sqrt ⟨[occLightA, occLightB], [occFloor m, occWall]⟩ 2 occRay2 (1 / 100)
      Fl.pinf 1 = .ok ⟨Vec3.splat 200, 6, [1, 2]⟩ := by
  rw [rayColor_hit Rat.sqrt _ 1 occRay2 (1 / 100) Fl.pinf 1 (by norm_num) occHit2 occWall
    matteGrey (occ_closest2 m) rfl]
  rw [show (1 : Int) + 1 = 2 by norm_num, rayColor_cap]
  simp only [lightLoop, occ_shadowA2, occ_shadowB2, occ_termA2, occ_termB2]
  norm_num [Vec3.clamp, Vec3.add, Vec3.smul, Vec3.splat, R3.toVec, Fl.min, Fl.max, matteGrey]

/-- The run on the reflected ray with the first light alone: `(120,120,120)`. -/
theorem occ_inner_trunc (m : Material ℚ) :
    rayColor Rat.sqrt ⟨[occLightA], [occFloor m, occWall]⟩ 2 occRay2 (1 / 100)
      Fl.pinf 1 = .ok ⟨Vec3.splat 120, 4, [1, 2]⟩ := by
  rw [rayColor_hit Rat.sqrt _ 1 occRay2 (1 / 100) Fl.pinf 1 (by norm_num) occHit2 occWall
    matteGrey (occ_closest2 m) rfl]
  rw [show (1 : Int) + 1 = 2 by norm_num, rayColor_cap]
  simp only [lightLoop, occ_shadowA2, occ_termA2]
  norm_num [Vec3.clamp, Vec3.add, Vec3.smul, Vec3.splat, R3.toVec, Fl.min, Fl.max, matteGrey]

theorem occ_full :
    rayColor Rat.sqrt ⟨[occLightA, occLightB], [occFloor mirrorBlack, occWall]⟩ 3 occRay 0
      Fl.pinf 0 = .ok ⟨Vec3.splat 200, 10, [0, 1, 2]⟩ := by
  rw [rayColor_hit Rat.sqrt _ 2 occRay 0 Fl.pinf 0 (by norm_num) occHit1
    (occFloor mirrorBlack) mirrorBlack (occ_closest1 mirrorBlack) rfl, occ_reflect1]
  rw [show (0 : Int) + 1 = 1 by norm_num, occ_inner_full]
  simp only [lightLoop, occ_shadowA1]
  norm_num [Vec3.clamp, Vec3.add, Vec3.smul, Vec3.splat, R3.toVec, Fl.min, Fl.max, mirrorBlack]

theorem occ_trunc :
    rayColor Rat.sqrt ⟨[occLightA], [occFloor mirrorBlack, occWall]⟩ 3 occRay 0
      Fl.pinf 0 = .ok ⟨Vec3.splat 120, 8, [0, 1, 2]⟩ := by
  rw [rayColor_hit Rat.sqrt _ 2 occRay 0 Fl.pinf 0 (by norm_num) occHit1
    (occFloor mirrorBlack) mirrorBlack (occ_closest1 mirrorBlack) rfl, occ_reflect1]
  rw [show (0 : Int) + 1 = 1 by norm_num, occ_inner_trunc]
  simp only [lightLoop, occ_shadowA1]
  norm_num [Vec3.clamp, Vec3.add, Vec3.smul, Vec3.splat, R3.toVec, Fl.min, Fl.max, mirrorBlack]

end Concrete

section ConcreteClaims

/-- C3 (counterexample). Floor mirror and matte wall, lights `[A, B]`, primary ray
meeting the floor at the origin: the shadow ray toward `A` hits the wall while
`B` is unoccluded there, yet the returned colour is `(200,200,200)`, against
`(120,120,120)` for the light list `[A]`: at the hit point of the reflected ray
both lights are visible and `B` contributes. -/
theorem occlusion_counterexample :
    closestLoop Rat.sqrt occRay 0 [occFloor mirrorBlack, occWall] Fl.pinf none =
      some (occHit1, occFloor mirrorBlack) ∧
    (∃ g ∈ [occFloor mirrorBlack, occWall], ∃ h,
      g.hit Rat.sqrt ⟨occHit1.p, Vec3.sub occLightA.toVec occHit1.p⟩ (1 / 10000) Fl.pinf
        = some h) ∧
    (shadowLoop Rat.sqrt ⟨occHit1.p, Vec3.sub occLightB.toVec occHit1.p⟩
      [occFloor mirrorBlack, occWall]).1 = false ∧
    colorOf (rayColor Rat.sqrt
      ⟨[] ++ [occLightA] ++ [occLightB], [occFloor mirrorBlack, occWall]⟩
      3 occRay 0 Fl.pinf 0) = .ok (Vec3.splat 200) ∧
    colorOf (rayColor Rat.sqrt ⟨[] ++ [occLightA], [occFloor mirrorBlack, occWall]⟩
      3 occRay 0 Fl.pinf 0) = .ok (Vec3.splat 120) ∧
    colorOf (rayColor Rat.sqrt
      ⟨[] ++ [occLightA] ++ [occLightB], [occFloor mirrorBlack, occWall]⟩
      3 occRay 0 Fl.pinf 0) ≠
    colorOf (rayColor Rat.sqrt ⟨[] ++ [occLightA], [occFloor mirrorBlack, occWall]⟩
      3 occRay 0 Fl.pinf 0) := by
  have hfull : colorOf (rayColor Rat.sqrt ⟨[] ++ [occLightA] ++ [occLightB],
      [occFloor mirrorBlack, occWall]⟩ 3 occRay 0 Fl.pinf 0) = .ok (Vec3.splat 200) := by
    show colorOf (rayColor Rat.sqrt ⟨[occLightA, occLightB], [occFloor mirrorBlack, occWall]⟩
      3 occRay 0 Fl.pinf 0) = _
    rw [occ_full]
    rfl
  have htrunc : colorOf (rayColor Rat.sqrt ⟨[] ++ [occLightA],
      [occFloor mirrorBlack, occWall]⟩ 3 occRay 0 Fl.pinf 0) = .ok (Vec3.splat 120) := by
    show colorOf (rayColor Rat.sqrt ⟨[occLightA], [occFloor mirrorBlack, occWall]⟩
      3 occRay 0 Fl.pinf 0) = _
    rw [occ_trunc]
    rfl
  refine ⟨occ_closest1 mirrorBlack, ⟨occWall, by simp, _, occ_wall_hides_A⟩, ?_, hfull, htrunc,
    ?_⟩
  · rw [occ_shadowB1]
  · rw [hfull, htrunc]
    intro h
    simp only [Except.ok.injEq, Vec3.splat, Vec3.mk.injEq, Fl.fin.injEq] at h
    norm_num at h

/-- C3 (witness). The amended statement at a matte grey floor (mirror coefficient
`0`) and the matte wall, entered at depth `n = 0`: the reflected ray returns
`(200,200,200)` with both lights and `(120,120,120)` with the first alone, and
the returned colour is `(40,40,40)` for both light lists. -/
theorem occlusion_short_circuit_witness :
    closestLoop Rat.sqrt occRay 0 [occFloor matteGrey, occWall] Fl.pinf none =
      some (occHit1, occFloor matteGrey) ∧
    (occFloor matteGrey).mat = some matteGrey ∧
    (∃ g ∈ [occFloor matteGrey, occWall], ∃ h,
      g.hit Rat.sqrt ⟨occHit1.p, Vec3.sub occLightA.toVec occHit1.p⟩ (1 / 10000) Fl.pinf
        = some h) ∧
    (∀ acc, lightLoop Rat.sqrt [occFloor matteGrey, occWall] occRay occHit1 matteGrey
        ([] ++ [occLightA] ++ [occLightB]) acc =
      lightLoop Rat.sqrt [occFloor matteGrey, occWall] occRay occHit1 matteGrey
        ([] ++ [occLightA]) acc) ∧
    colorOf (rayColor Rat.sqrt ⟨[] ++ [occLightA] ++ [occLightB], [occFloor matteGrey, occWall]⟩
      (2 + 1) occRay 0 Fl.pinf 0) =
    colorOf (rayColor Rat.sqrt ⟨[] ++ [occLightA], [occFloor matteGrey, occWall]⟩
      (2 + 1) occRay 0 Fl.pinf 0) := by
  have hocc : ∃ g ∈ [occFloor matteGrey, occWall], ∃ h,
      g.hit Rat.sqrt ⟨occHit1.p, Vec3.sub occLightA.toVec occHit1.p⟩ (1 / 10000) Fl.pinf
        = some h :=
    ⟨occWall, by simp, _, occ_wall_hides_A⟩
  have key := occlusion_short_circuit Rat.sqrt [occFloor matteGrey, occWall] [] [occLightB]
    occLightA occRay 0 Fl.pinf 0 2 occHit1 (occFloor matteGrey) matteGrey
    (occ_closest1 matteGrey) rfl hocc
  have hf1 : ∀ r, rayColor Rat.sqrt ⟨[] ++ [occLightA] ++ [occLightB],
      [occFloor matteGrey, occWall]⟩ 2 (reflectionRay Rat.sqrt occRay occHit1) (1 / 100)
      Fl.pinf (0 + 1) = .ok r → r.color.Finite := by
    intro r hr
    rw [occ_reflect1] at hr
    have := occ_inner_full matteGrey
    rw [show (0 : Int) + 1 = 1 by norm_num] at hr
    have he : Except.ok r = Except.ok (⟨Vec3.splat 200, 6, [1, 2]⟩ : Run ℚ) :=
      hr.symm.trans this
    cases he
    exact ⟨⟨200, 200, 200⟩, rfl⟩
  have hf2 : ∀ r, rayColor Rat.sqrt ⟨[] ++ [occLightA],
      [occFloor matteGrey, occWall]⟩ 2 (reflectionRay Rat.sqrt occRay occHit1) (1 / 100)
      Fl.pinf (0 + 1) = .ok r → r.color.Finite := by
    intro r hr
    rw [occ_reflect1] at hr
    have := occ_inner_trunc matteGrey
    rw [show (0 : Int) + 1 = 1 by norm_num] at hr
    have he : Except.ok r = Except.ok (⟨Vec3.splat 120, 4, [1, 2]⟩ : Run ℚ) :=
      hr.symm.trans this
    cases he
    exact ⟨⟨120, 120, 120⟩, rfl⟩
  exact ⟨occ_closest1 matteGrey, rfl, hocc, key.1, key.2 (Or.inr (Or.inr ⟨rfl, hf1, hf2⟩))⟩

/-! ### Two facing mirrors -/

theorem cap_closest1 :
    closestLoop Rat.sqrt capRay 0 [capFloor, capCeiling] Fl.pinf none =
      some (capHit1, capFloor) := by
  norm_num [closestLoop, Geometry.hit, Plain.hit, Vec3.dot, Vec3.add, Vec3.smul, R3.toVec,
    Ray.ofR3, HitResult.ofR3, FLT_EPSILON, abs_lt, Fl.lt, capRay, capFloor, capCeiling, capHit1]

theorem cap_reflect1 : reflectionRay Rat.sqrt capRay capHit1 = capRay2 := by
  norm_num [reflectionRay, Vec3.normalize, Vec3.dot, Vec3.sub, Vec3.smul, R3.toVec, Ray.ofR3,
    HitResult.ofR3, capRay, capHit1, capRay2, rsqrt_1]

theorem cap_closest2 :
    closestLoop Rat.sqrt capRay2 (1 / 100) [capFloor, capCeiling] Fl.pinf none =
      some (capHit2, capCeiling) := by
  norm_num [closestLoop, Geometry.hit, Plain.hit, Vec3.dot, Vec3.add, Vec3.smul, R3.toVec,
    Ray.ofR3, HitResult.ofR3, FLT_EPSILON, abs_lt, Fl.lt, capRay2, capFloor, capCeiling, capHit2]

theorem cap_reflect2 : reflectionRay Rat.sqrt capRay2 capHit2 = capRay3 := by
  norm_num [reflectionRay, Vec3.normalize, Vec3.dot, Vec3.sub, Vec3.smul, R3.toVec, Ray.ofR3,
    HitResult.ofR3, capRay2, capHit2, capRay3, rsqrt_1]

theorem cap_closest3 :
    closestLoop Rat.sqrt capRay3 (1 / 100) [capFloor, capCeiling] Fl.pinf none =
      some (HitResult.ofR3 ⟨0, 0, 0⟩ ⟨0, 1, 0⟩ 20, capFloor) := by
  norm_num [closestLoop, Geometry.hit, Plain.hit, Vec3.dot, Vec3.add, Vec3.smul, R3.toVec,
    Ray.ofR3, HitResult.ofR3, FLT_EPSILON, abs_lt, Fl.lt, capRay3, capFloor, capCeiling]

/-- C6 (counterexample). Two parallel mirrors facing each other, mirror
coefficient `1`, zero specular, grey diffuse, no lights; the ray from between
them straight down hits the floor, its reflection hits the ceiling, and the
reflection of that would hit the floor again; `rayColor` entered with `n = 0`
returns `(80,80,80)`, not black. -/
theorem depth_cap_counterexample :
    capFloor.mat = some mirrorGrey ∧ capCeiling.mat = some mirrorGrey ∧
    mirrorGrey.mKm = 1 ∧ mirrorGrey.mKs = ⟨0, 0, 0⟩ ∧
    closestLoop Rat.sqrt capRay 0 [capFloor, capCeiling] Fl.pinf none =
      some (capHit1, capFloor) ∧
    closestLoop Rat.sqrt (reflectionRay Rat.sqrt capRay capHit1) (1 / 100)
      [capFloor, capCeiling] Fl.pinf none = some (capHit2, capCeiling) ∧
    closestLoop Rat.sqrt
      (reflectionRay Rat.sqrt (reflectionRay Rat.sqrt capRay capHit1) capHit2) (1 / 100)
      [capFloor, capCeiling] Fl.pinf none =
        some (HitResult.ofR3 ⟨0, 0, 0⟩ ⟨0, 1, 0⟩ 20, capFloor) ∧
    rayColor Rat.sqrt ⟨[], [capFloor, capCeiling]⟩ 3 capRay 0 Fl.pinf 0 =
      .ok ⟨Vec3.splat 80, 4, [0, 1, 2]⟩ ∧
    colorOf (rayColor Rat.sqrt ⟨[], [capFloor, capCeiling]⟩ 3 capRay 0 Fl.pinf 0) ≠
      .ok (Vec3.splat 0) := by
  have hrun : rayColor Rat.sqrt ⟨[], [capFloor, capCeiling]⟩ 3 capRay 0 Fl.pinf 0 =
      .ok ⟨Vec3.splat 80, 4, [0, 1, 2]⟩ := by
    rw [rayColor_hit Rat.sqrt _ 2 capRay 0 Fl.pinf 0 (by norm_num) capHit1 capFloor mirrorGrey
      cap_closest1 rfl, cap_reflect1]
    rw [rayColor_hit Rat.sqrt _ 1 capRay2 (1 / 100) Fl.pinf (0 + 1) (by norm_num) capHit2
      capCeiling mirrorGrey cap_closest2 rfl]
    rw [show (0 : Int) + 1 + 1 = 2 by norm_num, rayColor_cap]
    simp only [lightLoop]
    norm_num [Vec3.clamp, Vec3.add, Vec3.smul, Vec3.splat, R3.toVec, Fl.min, Fl.max, mirrorGrey]
  refine ⟨rfl, rfl, rfl, rfl, cap_closest1, ?_, ?_, hrun, ?_⟩
  · rw [cap_reflect1]
    exact cap_closest2
  · rw [cap_reflect1, cap_reflect2]
    exact cap_closest3
  · rw [hrun]
    intro h
    simp only [colorOf, Vec3.splat, Except.ok.injEq, Vec3.mk.injEq, Fl.fin.injEq] at h
    norm_num at h

theorem blk_closest1 :
    closestLoop Rat.sqrt capRay 0
      [.plain ⟨⟨0, 1, 0⟩, ⟨0, 0, 0⟩⟩ (some mirrorBlack),
        .plain ⟨⟨0, -1, 0⟩, ⟨0, 20, 0⟩⟩ (some mirrorBlack)] Fl.pinf none =
      some (capHit1, .plain ⟨⟨0, 1, 0⟩, ⟨0, 0, 0⟩⟩ (some mirrorBlack)) := by
  norm_num [closestLoop, Geometry.hit, Plain.hit, Vec3.dot, Vec3.add, Vec3.smul, R3.toVec,
    Ray.ofR3, HitResult.ofR3, FLT_EPSILON, abs_lt, Fl.lt, capRay, capHit1]

theorem blk_closest2 :
    closestLoop Rat.sqrt capRay2 (1 / 100)
      [.plain ⟨⟨0, 1, 0⟩, ⟨0, 0, 0⟩⟩ (some mirrorBlack),
        .plain ⟨⟨0, -1, 0⟩, ⟨0, 20, 0⟩⟩ (some mirrorBlack)] Fl.pinf none =
      some (capHit2, .plain ⟨⟨0, -1, 0⟩, ⟨0, 20, 0⟩⟩ (some mirrorBlack)) := by
  norm_num [closestLoop, Geometry.hit, Plain.hit, Vec3.dot, Vec3.add, Vec3.smul, R3.toVec,
    Ray.ofR3, HitResult.ofR3, FLT_EPSILON, abs_lt, Fl.lt, capRay2, capHit2]

/-- C6 (witness). The amended statement at two black mirrors `y = 0` and `y = 20`
facing each other, mirror coefficient `1`, without lights: exactly black. -/
theorem depth_cap_black_mirrors_witness :
    mirrorBlack.mKm = 1 ∧
    closestLoop Rat.sqrt capRay 0
      [.plain ⟨⟨0, 1, 0⟩, ⟨0, 0, 0⟩⟩ (some mirrorBlack),
        .plain ⟨⟨0, -1, 0⟩, ⟨0, 20, 0⟩⟩ (some mirrorBlack)] Fl.pinf none =
      some (capHit1, .plain ⟨⟨0, 1, 0⟩, ⟨0, 0, 0⟩⟩ (some mirrorBlack)) ∧
    closestLoop Rat.sqrt (reflectionRay Rat.sqrt capRay capHit1) (1 / 100)
      [.plain ⟨⟨0, 1, 0⟩, ⟨0, 0, 0⟩⟩ (some mirrorBlack),
        .plain ⟨⟨0, -1, 0⟩, ⟨0, 20, 0⟩⟩ (some mirrorBlack)] Fl.pinf none =
      some (capHit2, .plain ⟨⟨0, -1, 0⟩, ⟨0, 20, 0⟩⟩ (some mirrorBlack)) ∧
    ∃ r, rayColor Rat.sqrt ⟨[],
        [.plain ⟨⟨0, 1, 0⟩, ⟨0, 0, 0⟩⟩ (some mirrorBlack),
          .plain ⟨⟨0, -1, 0⟩, ⟨0, 20, 0⟩⟩ (some mirrorBlack)]⟩ (0 + 3) capRay 0 Fl.pinf 0
        = .ok r ∧ r.calls = [0, 1, 2] ∧ r.color = Vec3.splat 0 := by
  have hb2 : closestLoop Rat.sqrt (reflectionRay Rat.sqrt capRay capHit1) (1 / 100)
      [.plain ⟨⟨0, 1, 0⟩, ⟨0, 0, 0⟩⟩ (some mirrorBlack),
        .plain ⟨⟨0, -1, 0⟩, ⟨0, 20, 0⟩⟩ (some mirrorBlack)] Fl.pinf none =
      some (capHit2, .plain ⟨⟨0, -1, 0⟩, ⟨0, 20, 0⟩⟩ (some mirrorBlack)) := by
    rw [cap_reflect1]
    exact blk_closest2
  obtain ⟨r, hr, hcalls, _, hblack⟩ :=
    depth_cap_black_mirrors Rat.sqrt [] ⟨⟨0, 1, 0⟩, ⟨0, 0, 0⟩⟩ ⟨⟨0, -1, 0⟩, ⟨0, 20, 0⟩⟩
      mirrorBlack mirrorBlack capRay 0 Fl.pinf 0 capHit1 capHit2 _ _
      rfl rfl rfl rfl blk_closest1 hb2
  exact ⟨rfl, blk_closest1, hb2, r, hr, hcalls, hblack rfl⟩

/-! ### A light and a viewer on opposite sides of a plane, in line with the hit point -/

theorem tint_closest :
    closestLoop Rat.sqrt capRay 0 [tintPlane] Fl.pinf none = some (underHit, tintPlane) := by
  norm_num [closestLoop, Geometry.hit, Plain.hit, Vec3.dot, Vec3.add, Vec3.smul, R3.toVec,
    Ray.ofR3, HitResult.ofR3, FLT_EPSILON, abs_lt, Fl.lt, capRay, tintPlane, underHit]

theorem tint_shadow :
    shadowLoop Rat.sqrt ⟨underHit.p, Vec3.sub underLight.toVec underHit.p⟩ [tintPlane] =
      (false, 1) := by
  norm_num [shadowLoop, Geometry.hit, Plain.hit, Vec3.dot, Vec3.add, Vec3.sub, Vec3.smul,
    R3.toVec, HitResult.ofR3, FLT_EPSILON, abs_lt, Fl.lt, tintPlane, underHit, underLight]

theorem tint_half :
    Vec3.normalize Rat.sqrt
      (Vec3.add (Vec3.normalize Rat.sqrt (Vec3.sub underLight.toVec underHit.p))
        (Vec3.normalize Rat.sqrt (Vec3.sub capRay.o underHit.p))) =
      ⟨Fl.nan, Fl.nan, Fl.nan⟩ := by
  norm_num [Vec3.normalize, Vec3.dot, Vec3.add, Vec3.sub, Vec3.smul, R3.toVec, Ray.ofR3,
    HitResult.ofR3, Fl.infOfSign, capRay, underHit, underLight, rsqrt_25, rsqrt_100, rsqrt_0]

theorem tint_term :
    lightTerm Rat.sqrt capRay underHit matteTint underLight = ⟨Fl.nan, Fl.nan, Fl.nan⟩ := by
  unfold lightTerm
  simp only [tint_half]
  norm_num [Vec3.normalize, Vec3.dot, Vec3.add, Vec3.sub, Vec3.smul, R3.toVec, Ray.ofR3,
    HitResult.ofR3, Fl.max, Fl.lt, capRay, underHit, underLight, matteTint, rsqrt_25,
    rsqrt_100]

theorem tint_closest2 :
    closestLoop Rat.sqrt capRay2 (1 / 100) [tintPlane] Fl.pinf none = none := by
  norm_num [closestLoop, Geometry.hit, Plain.hit, Vec3.dot, Vec3.add, Vec3.smul, R3.toVec,
    Ray.ofR3, FLT_EPSILON, abs_lt, Fl.lt, capRay2, tintPlane]

theorem under_reflect_cap : reflectionRay Rat.sqrt capRay underHit = capRay2 := by
  norm_num [reflectionRay, Vec3.normalize, Vec3.dot, Vec3.sub, Vec3.smul, R3.toVec, Ray.ofR3,
    HitResult.ofR3, capRay, underHit, capRay2, rsqrt_1]

/-- C9 (counterexample). One plane `y = 0` with a matte material, one light at
`(0,-5,0)`, the ray from `(0,10,0)` straight down: the light is unoccluded, the
light vector `(0,-1,0)` and the view vector `(0,1,0)` add up to the zero vector,
whose normalization is NaN; the specular term is NaN, the clamp passes it, and
`rayColor` entered with `n = 0` returns `(NaN, NaN, NaN)`. -/
theorem output_range_counterexample :
    tintPlane.mat = some matteTint ∧
    closestLoop Rat.sqrt capRay 0 [tintPlane] Fl.pinf none = some (underHit, tintPlane) ∧
    (shadowLoop Rat.sqrt ⟨underHit.p, Vec3.sub underLight.toVec underHit.p⟩ [tintPlane]).1
      = false ∧
    rayColor Rat.sqrt ⟨[underLight], [tintPlane]⟩ 3 capRay 0 Fl.pinf 0 =
      .ok ⟨⟨Fl.nan, Fl.nan, Fl.nan⟩, 3, [0, 1]⟩ ∧
    ¬ (⟨Fl.nan, Fl.nan, Fl.nan⟩ : Vec3 ℚ).InRange 0 255 := by
  refine ⟨rfl, tint_closest, by rw [tint_shadow], ?_, ?_⟩
  · rw [rayColor_hit Rat.sqrt _ 2 capRay 0 Fl.pinf 0 (by norm_num) underHit tintPlane matteTint
      tint_closest rfl, under_reflect_cap]
    rw [rayColor_miss Rat.sqrt _ 1 capRay2 (1 / 100) Fl.pinf (0 + 1) (by norm_num)
      tint_closest2]
    simp only [lightLoop, tint_shadow, tint_term]
    norm_num [Vec3.clamp, Vec3.add, Vec3.smul, Vec3.splat, R3.toVec, Fl.min, Fl.max, matteTint]
  · rintro ⟨⟨c, hc, _⟩, _⟩
    cases hc

/-- C9 (witness). The floor-and-wall scene with both lights. -/
theorem output_range_witness :
    (∀ g ∈ [occFloor mirrorBlack, occWall], g.mat ≠ none) ∧
    (∃ r, rayColor Rat.sqrt ⟨[occLightA, occLightB], [occFloor mirrorBlack, occWall]⟩ (0 + 3)
      occRay 0 Fl.pinf 0 = .ok r ∧ r.color.NanOrInRange 0 255 ∧
      ((⟨[occLightA, occLightB], [occFloor mirrorBlack, occWall]⟩ : Scene ℚ).mPointLightList
        = [] → r.color.InRange 0 255)) ∧
    (∃ r, rayColor Rat.sqrt ⟨[occLightA, occLightB], [occFloor mirrorBlack, occWall]⟩ (0 + 1)
      occRay 0 Fl.pinf 2 = .ok r ∧ r.color.InRange 0 255) := by
  have hmat : ∀ g ∈ [occFloor mirrorBlack, occWall], g.mat ≠ none := by
    intro g hg
    rcases List.mem_cons.mp hg with rfl | hg'
    · simp [occFloor, Geometry.mat]
    · rw [List.mem_singleton.mp hg']
      simp [occWall, Geometry.mat]
  exact ⟨hmat, output_range Rat.sqrt ⟨[occLightA, occLightB], [occFloor mirrorBlack, occWall]⟩
    0 occRay 0 Fl.pinf hmat⟩

/-! ### A light and a viewer below a plane whose stored normal points up -/

theorem under_closest :
    closestLoop Rat.sqrt underRay 0 [shinyPlane] Fl.pinf none = some (underHit, shinyPlane) := by
  norm_num [closestLoop, Geometry.hit, Plain.hit, Vec3.dot, Vec3.add, Vec3.smul, R3.toVec,
    Ray.ofR3, HitResult.ofR3, FLT_EPSILON, abs_lt, Fl.lt, underRay, shinyPlane, underHit]

theorem under_shadow :
    shadowLoop Rat.sqrt ⟨underHit.p, Vec3.sub underLight.toVec underHit.p⟩ [shinyPlane] =
      (false, 1) := by
  norm_num [shadowLoop, Geometry.hit, Plain.hit, Vec3.dot, Vec3.add, Vec3.sub, Vec3.smul,
    R3.toVec, HitResult.ofR3, FLT_EPSILON, abs_lt, Fl.lt, shinyPlane, underHit, underLight]

theorem under_term :
    lightTerm Rat.sqrt underRay underHit shinyOnly underLight = Vec3.splat 180 := by
  norm_num [lightTerm, Vec3.normalize, Vec3.dot, Vec3.add, Vec3.sub, Vec3.smul, Vec3.splat,
    R3.toVec, Ray.ofR3, HitResult.ofR3, Fl.max, Fl.lt, underRay, underHit, shinyOnly,
    underLight, rsqrt_25, rsqrt_100, rsqrt_4]

theorem under_term_spec :
    lightTermSpec Rat.sqrt underRay underHit shinyOnly underLight = Vec3.splat 0 := by
  norm_num [lightTermSpec, Vec3.normalize, Vec3.dot, Vec3.add, Vec3.sub, Vec3.smul, Vec3.splat,
    R3.toVec, Ray.ofR3, HitResult.ofR3, Fl.max, Fl.lt, underRay, underHit, shinyOnly,
    underLight, rsqrt_25, rsqrt_100, rsqrt_4]

theorem under_reflect :
    reflectionRay Rat.sqrt underRay underHit = Ray.ofR3 ⟨0, 0, 0⟩ ⟨0, -1, 0⟩ := by
  norm_num [reflectionRay, Vec3.normalize, Vec3.dot, Vec3.sub, Vec3.smul, R3.toVec, Ray.ofR3,
    HitResult.ofR3, underRay, underHit, rsqrt_1]

theorem under_closest2 :
    closestLoop Rat.sqrt (Ray.ofR3 ⟨0, 0, 0⟩ ⟨0, -1, 0⟩) (1 / 100) [shinyPlane] Fl.pinf none =
      none := by
  norm_num [closestLoop, Geometry.hit, Plain.hit, Vec3.dot, Vec3.add, Vec3.smul, R3.toVec,
    Ray.ofR3, FLT_EPSILON, abs_lt, Fl.lt, shinyPlane]

/-- C10 (failing input). Plane `y = 0` with stored normal `(0,1,0)` and
specular-only material `(180,180,180)`, viewed from `(0,-10,0)` with the light at
`(0,-5,0)`: the ray hits the plane at the origin, the light is unoccluded, the
half vector is `(0,-1,0)` and its product with the normal is `-1`; the code adds
`180 * (-1)^100 = 180` per channel and `rayColor` returns `(180,180,180)`, where
the clamped formula adds `0`. -/
theorem specular_unclamped :
    closestLoop Rat.sqrt underRay 0 [shinyPlane] Fl.pinf none = some (underHit, shinyPlane) ∧
    (shadowLoop Rat.sqrt ⟨underHit.p, Vec3.sub underLight.toVec underHit.p⟩ [shinyPlane]).1
      = false ∧
    lightTerm Rat.sqrt underRay underHit shinyOnly underLight = Vec3.splat 180 ∧
    lightTermSpec Rat.sqrt underRay underHit shinyOnly underLight = Vec3.splat 0 ∧
    rayColor Rat.sqrt ⟨[underLight], [shinyPlane]⟩ 3 underRay 0 Fl.pinf 0 =
      .ok ⟨Vec3.splat 180, 3, [0, 1]⟩ := by
  refine ⟨under_closest, by rw [under_shadow], under_term, under_term_spec, ?_⟩
  rw [rayColor_hit Rat.sqrt _ 2 underRay 0 Fl.pinf 0 (by norm_num) underHit shinyPlane shinyOnly
    under_closest rfl, under_reflect]
  rw [rayColor_miss Rat.sqrt _ 1 (Ray.ofR3 ⟨0, 0, 0⟩ ⟨0, -1, 0⟩) (1 / 100) Fl.pinf (0 + 1)
    (by norm_num) under_closest2]
  simp only [lightLoop, under_shadow, under_term]
  norm_num [Vec3.clamp, Vec3.add, Vec3.smul, Vec3.splat, R3.toVec, Fl.min, Fl.max, shinyOnly]

end ConcreteClaims
/-! ## Instances on concrete inputs -/

section Witnesses

theorem ball_hit (t2 : Fl ℚ) (h2 : Fl.lt t2 (Fl.fin 12) = false) :
    ballGeom.hit Rat.sqrt (Ray.ofR3 ballO ballD) 0 t2 = some ballHit := by
  have ha : quadA ballD ≠ 0 := by norm_num [quadA, R3.dot, ballD]
  have hD : quadD ballThree ballO ballD = 9 := by
    norm_num [quadD, quadA, quadB, quadC, R3.dot, R3.sub, ballThree, ballO, ballD]
  have ht : nearRoot Rat.sqrt ballThree ballO ballD = 12 := by
    unfold nearRoot
    rw [hD, rsqrt_9]
    norm_num [quadA, quadB, R3.dot, R3.sub, ballThree, ballO, ballD]
  show Sphere.hit Rat.sqrt ballThree (Ray.ofR3 ballO ballD) 0 t2 = _
  rw [sphere_hit_ofR3 Rat.sqrt ballThree ballO ballD 0 t2 ha, hD, ht, h2]
  norm_num [Vec3.sdiv, R3.add, R3.sub, R3.smul, R3.toVec, HitResult.ofR3, ballThree, ballO,
    ballD, ballHit]

theorem near_hit :
    nearGeom.hit Rat.sqrt (Ray.ofR3 ballO ballD) 0 Fl.pinf = some nearHit := by
  norm_num [Geometry.hit, Plain.hit, Vec3.dot, Vec3.add, Vec3.sub, Vec3.smul, R3.toVec,
    Ray.ofR3, HitResult.ofR3, FLT_EPSILON, abs_lt, Fl.lt, nearGeom, nearPlane, ballO, ballD,
    nearHit]

theorem ball_miss : ballGeom.hit Rat.sqrt (Ray.ofR3 ballO awayD) 0 Fl.pinf = none := by
  have ha : quadA awayD ≠ 0 := by norm_num [quadA, R3.dot, awayD]
  have hD : quadD ballThree ballO awayD = 9 := by
    norm_num [quadD, quadA, quadB, quadC, R3.dot, R3.sub, ballThree, ballO, awayD]
  have ht : nearRoot Rat.sqrt ballThree ballO awayD = -18 := by
    unfold nearRoot
    rw [hD, rsqrt_9]
    norm_num [quadA, quadB, R3.dot, R3.sub, ballThree, ballO, awayD]
  show Sphere.hit Rat.sqrt ballThree (Ray.ofR3 ballO awayD) 0 Fl.pinf = _
  rw [sphere_hit_ofR3 Rat.sqrt ballThree ballO awayD 0 Fl.pinf ha, hD, ht]
  norm_num

/-- C1 (witness). A sphere hit at `t = 12` and a plane hit at `t = 10` along one
ray: the plane is selected in either insertion order. -/
theorem closest_hit_selection_witness :
    (∃ h g t, closestLoop Rat.sqrt (Ray.ofR3 ballO ballD) 0 [ballGeom, nearGeom]
        (Fl.ofTop ⊤) none = some (h, g) ∧
      g ∈ [ballGeom, nearGeom] ∧
      g.hit Rat.sqrt (Ray.ofR3 ballO ballD) 0 (Fl.ofTop ⊤) = some h ∧ h.t = Fl.fin t ∧
      0 ≤ t ∧ (t : WithTop ℚ) ≤ ⊤ ∧
      ∀ g' ∈ [ballGeom, nearGeom], ∀ h' t',
        g'.hit Rat.sqrt (Ray.ofR3 ballO ballD) 0 (Fl.ofTop ⊤) = some h' →
          h'.t = Fl.fin t' → t ≤ t') ∧
    closestLoop Rat.sqrt (Ray.ofR3 ballO ballD) 0 [nearGeom, ballGeom] (Fl.ofTop ⊤) none =
      some (nearHit, nearGeom) ∧
    closestLoop Rat.sqrt (Ray.ofR3 ballO ballD) 0 [ballGeom, nearGeom] (Fl.ofTop ⊤) none =
      some (nearHit, nearGeom) :=
  ⟨(closest_hit_selection Rat.sqrt ballO ballD 0 ⊤).1 [ballGeom, nearGeom]
      ⟨ballGeom, by simp, ballHit, 12, ball_hit Fl.pinf rfl, rfl⟩,
    (closest_hit_selection Rat.sqrt ballO ballD 0 ⊤).2 nearGeom ballGeom nearHit ballHit 10 12
      near_hit (ball_hit Fl.pinf rfl) rfl rfl (by norm_num)⟩

/-- C2 (counterexample). The sphere of radius 3 about the origin and the ray from
`(0,0,15)` with direction `(0,0,0)`, over `[1, 2]`: the discriminant is `0`, the
parameter is `0/0`, both comparisons with the bounds are false, and `hit`
returns true with `t = NaN`. -/
theorem hit_interval_counterexample :
    Sphere.hit Rat.sqrt ballThree (Ray.ofR3 ballO zeroD) 1 (Fl.fin 2) = some nanHit ∧
    nanHit.t = Fl.nan ∧
    ¬ ∃ t : ℚ, nanHit.t = Fl.fin t ∧ 1 ≤ t ∧ t ≤ 2 := by
  refine ⟨?_, rfl, ?_⟩
  · norm_num [Sphere.hit, Vec3.dot, Vec3.add, Vec3.sub, Vec3.smul, Vec3.sdiv, R3.toVec,
      Ray.ofR3, Fl.infOfSign, Fl.lt, ballThree, ballO, zeroD, nanHit, rsqrt_0]
  · rintro ⟨t, ht, _⟩
    cases ht

/-- C2 (witness). The sphere hit at `t = 12` and the plane hit at `t = 10` on the
ray from `(0,0,15)` toward the origin: each is reported over the interval that
ends, or starts, exactly at its parameter, and not over `[0, 9]`. -/
theorem hit_interval_filter_witness :
    (∃ h, ballThree.hit Rat.sqrt (Ray.ofR3 ballO ballD) 0 (Fl.ofTop ((12 : ℚ) : WithTop ℚ))
      = some h) ∧
    (¬ ∃ h, ballThree.hit Rat.sqrt (Ray.ofR3 ballO ballD) 0 (Fl.ofTop ((9 : ℚ) : WithTop ℚ))
      = some h) ∧
    (∃ h, nearPlane.hit (Ray.ofR3 ballO ballD) 10 (Fl.ofTop ⊤) = some h) ∧
    (¬ ∃ h, nearPlane.hit (Ray.ofR3 ballO ballD) 0 (Fl.ofTop ((9 : ℚ) : WithTop ℚ))
      = some h) := by
  have hd : ballD ≠ ⟨0, 0, 0⟩ := by simp [ballD]
  have hD : quadD ballThree ballO ballD = 9 := by
    norm_num [quadD, quadA, quadB, quadC, R3.dot, R3.sub, ballThree, ballO, ballD]
  have ht : nearRoot Rat.sqrt ballThree ballO ballD = 12 := by
    unfold nearRoot
    rw [hD, rsqrt_9]
    norm_num [quadA, quadB, R3.dot, R3.sub, ballThree, ballO, ballD]
  have hp : planeParam nearPlane ballO ballD = 10 := by
    norm_num [planeParam, R3.dot, nearPlane, ballO, ballD]
  have hg : FLT_EPSILON ≤ |R3.dot ballD nearPlane.mN| := by
    norm_num [FLT_EPSILON, R3.dot, nearPlane, ballD]
  have s12 := ((hit_interval_filter Rat.sqrt ballO ballD 0 ((12 : ℚ) : WithTop ℚ)).1
    ballThree hd).2.1
  have s9 := ((hit_interval_filter Rat.sqrt ballO ballD 0 ((9 : ℚ) : WithTop ℚ)).1
    ballThree hd).2.1
  have p10 := ((hit_interval_filter Rat.sqrt ballO ballD 10 ⊤).2 nearPlane).2.1
  have p9 := ((hit_interval_filter Rat.sqrt ballO ballD 0 ((9 : ℚ) : WithTop ℚ)).2
    nearPlane).2.1
  refine ⟨s12.mpr ?_, ?_, p10.mpr ?_, ?_⟩
  · rw [hD, ht]
    exact ⟨by norm_num, by norm_num, le_refl _⟩
  · rw [s9, hD, ht]
    rintro ⟨_, _, h⟩
    rw [WithTop.coe_le_coe] at h
    norm_num at h
  · rw [hp]
    exact ⟨hg, le_refl _, le_top⟩
  · rw [p9, hp]
    rintro ⟨_, _, h⟩
    rw [WithTop.coe_le_coe] at h
    norm_num at h

/-- C4 (witness). The sphere of radius 3 about the origin and the ray from
`(0,0,15)` toward it. -/
theorem sphere_hit_correct_witness :
    (∃ (t : ℚ) (p n : R3 ℚ),
      ballHit.t = Fl.fin t ∧ ballHit.p = p.toVec ∧ ballHit.n = n.toVec ∧
      t = (-quadB ballThree ballO ballD -
        Rat.sqrt (quadB ballThree ballO ballD * quadB ballThree ballO ballD -
          quadA ballD * quadC ballThree ballO)) / quadA ballD ∧
      quadA ballD * t ^ 2 + 2 * quadB ballThree ballO ballD * t + quadC ballThree ballO = 0 ∧
      (∀ u : ℚ, quadA ballD * u ^ 2 + 2 * quadB ballThree ballO ballD * u +
        quadC ballThree ballO = 0 → t ≤ u) ∧
      p = R3.add ballO (R3.smul t ballD) ∧
      R3.dot (R3.sub p ballThree.mC) (R3.sub p ballThree.mC) = ballThree.mR * ballThree.mR ∧
      n = R3.sdiv (R3.sub p ballThree.mC) ballThree.mR ∧
      R3.dot n n = 1) ∧
    Sphere.hit Rat.sqrt ⟨⟨0, 0, 0⟩, 3⟩ (Ray.ofR3 ⟨0, 0, 5 * 3⟩ ⟨0, 0, -1⟩) 0 Fl.pinf =
      some ⟨(⟨0, 0, 3⟩ : R3 ℚ).toVec, (⟨0, 0, 1⟩ : R3 ℚ).toVec, Fl.fin (4 * 3)⟩ := by
  have hsq : 0 ≤ quadB ballThree ballO ballD * quadB ballThree ballO ballD -
      quadA ballD * quadC ballThree ballO →
      IsSqrtAt Rat.sqrt (quadB ballThree ballO ballD * quadB ballThree ballO ballD -
        quadA ballD * quadC ballThree ballO) := by
    intro _
    have hD : quadB ballThree ballO ballD * quadB ballThree ballO ballD -
        quadA ballD * quadC ballThree ballO = 9 := by
      norm_num [quadA, quadB, quadC, R3.dot, R3.sub, ballThree, ballO, ballD]
    rw [hD]
    unfold IsSqrtAt
    rw [rsqrt_9]
    norm_num
  have hsq3 : IsSqrtAt Rat.sqrt ((3 : ℚ) * 3) := by
    unfold IsSqrtAt
    rw [rsqrt_sq 3 (by norm_num)]
    norm_num
  exact ⟨(sphere_hit_correct Rat.sqrt).1 ballThree ballO ballD 0 Fl.pinf ballHit
      (by norm_num [ballThree]) (by simp [ballD]) hsq (ball_hit Fl.pinf rfl),
    (sphere_hit_correct Rat.sqrt).2 3 (by norm_num) hsq3⟩

/-- C5 (witness). The ground plane and the ray dropped on it from `(0,10,0)`; a
ray parallel to the plane is not reported. -/
theorem plain_hit_correct_witness :
    groundPlane.hit (Ray.ofR3 ⟨0, 10, 0⟩ ⟨0, -1, 0⟩) 0 Fl.pinf =
      some ⟨(⟨0, 0, 0⟩ : R3 ℚ).toVec, (⟨0, 1, 0⟩ : R3 ℚ).toVec, Fl.fin 10⟩ ∧
    (∃ (t : ℚ) (p : R3 ℚ),
      (Fl.fin 10 : Fl ℚ) = Fl.fin t ∧ (⟨0, 0, 0⟩ : R3 ℚ).toVec = p.toVec ∧
      t = (R3.dot groundPlane.mN groundPlane.mA - R3.dot groundPlane.mN ⟨0, 10, 0⟩) /
        R3.dot ⟨0, -1, 0⟩ groundPlane.mN ∧
      p = R3.add ⟨0, 10, 0⟩ (R3.smul t ⟨0, -1, 0⟩) ∧
      R3.dot groundPlane.mN (R3.sub p groundPlane.mA) = 0 ∧
      (⟨0, 1, 0⟩ : R3 ℚ).toVec = groundPlane.mN.toVec) ∧
    groundPlane.hit (Ray.ofR3 ⟨0, 10, 0⟩ ⟨1, 0, 0⟩) 0 Fl.pinf = none := by
  have hinst : groundPlane.hit (Ray.ofR3 ⟨0, 10, 0⟩ ⟨0, -1, 0⟩) 0 Fl.pinf =
      some ⟨(⟨0, 0, 0⟩ : R3 ℚ).toVec, (⟨0, 1, 0⟩ : R3 ℚ).toVec, Fl.fin 10⟩ :=
    (@plain_hit_correct ℚ _).2.2
  have hgen := (@plain_hit_correct ℚ _).1 groundPlane ⟨0, 10, 0⟩ ⟨0, -1, 0⟩ 0 Fl.pinf _
    (by norm_num [FLT_EPSILON, R3.dot, groundPlane]) hinst
  have hpar := (@plain_hit_correct ℚ _).2.1 groundPlane ⟨0, 10, 0⟩ ⟨1, 0, 0⟩ 0 Fl.pinf
    (by norm_num [FLT_EPSILON, R3.dot, groundPlane])
  exact ⟨hinst, hgen, hpar⟩

/-- C8 (witness). A ray pointing away from the only sphere of the scene. -/
theorem background_fallback_witness :
    (∀ g ∈ [ballGeom], g.hit Rat.sqrt (Ray.ofR3 ballO awayD) 0 Fl.pinf = none) ∧
    colorOf (rayColor Rat.sqrt ⟨[⟨0, 50, 0⟩], [ballGeom]⟩ (0 + 1) (Ray.ofR3 ballO awayD) 0
      Fl.pinf 0) = .ok (Vec3.splat 20) ∧
    ∀ n : Int, 0 < n →
      colorOf (rayColor Rat.sqrt ⟨[⟨0, 50, 0⟩], [ballGeom]⟩ (0 + 1) (Ray.ofR3 ballO awayD) 0
        Fl.pinf n) = .ok (Vec3.splat 0) := by
  have hmiss : ∀ g ∈ [ballGeom], g.hit Rat.sqrt (Ray.ofR3 ballO awayD) 0 Fl.pinf = none := by
    intro g hg
    rw [List.mem_singleton.mp hg]
    exact ball_miss
  exact ⟨hmiss, background_fallback Rat.sqrt ⟨[⟨0, 50, 0⟩], [ballGeom]⟩ 0
    (Ray.ofR3 ballO awayD) 0 Fl.pinf hmiss⟩

end Witnesses

end RayTracer
